import Mathlib

/-!
Verification of the pyssb packet-stream / MuxRPC layer.

This file gives a shallow embedding, in Lean, of the code in
src/ssb/packet_stream.py and src/ssb/muxrpc.py, and settles the frozen
claims about it.  Bytes are modelled as natural numbers below 256 and byte
strings as lists of such numbers; Python text strings are lists of unicode
code points; Python integers are Lean integers.  Fallible Python code
(struct packing, JSON decoding, dictionary lookup, assertions) is modelled
with Except over an explicit error type.

The two external collaborators the code leans on, the CPython UTF-8 codec
and the simplejson serializer and parser, are modelled at their interface
boundary by concrete executable Lean functions: the standard UTF-8
encoding of scalar values, and a JSON printer and recursive-descent parser
over a Python-value universe (dict, list, str, int, bool, None, bytes).
Floating-point JSON numbers are outside the model (the parser rejects a
number continuing with a fraction or exponent), as floats are not shallowly
embeddable; every claim here concerns non-float payloads.
-/

/-! ## Bytes and big-endian header fields (struct pack and unpack, format BIi) -/

/-- Unicode code points of a Lean string literal, used for concrete inputs. -/
def strBytes (s : String) : List Nat := s.toList.map Char.toNat

/-- Big-endian 4-byte encoding of an unsigned 32-bit value, as written by
struct.pack with format I. -/
def packU32 (n : Nat) : List Nat :=
  [n / 2 ^ 24 % 256, n / 2 ^ 16 % 256, n / 2 ^ 8 % 256, n % 256]

/-- Value of 4 big-endian bytes as an unsigned 32-bit integer. -/
def unpackU32 (b0 b1 b2 b3 : Nat) : Nat :=
  ((b0 * 256 + b1) * 256 + b2) * 256 + b3

/-- Big-endian two's-complement encoding of a signed 32-bit value, as
written by struct.pack with format i. -/
def packI32 (i : Int) : List Nat := packU32 (i % 2 ^ 32).toNat

/-- Signed reading of an unsigned 32-bit value. -/
def unpackI32 (n : Nat) : Int :=
  if n < 2 ^ 31 then (n : Int) else (n : Int) - 2 ^ 32

theorem unpackU32_packU32 (n : Nat) (h : n < 2 ^ 32) :
    unpackU32 (n / 2 ^ 24 % 256) (n / 2 ^ 16 % 256) (n / 2 ^ 8 % 256) (n % 256) = n := by
  unfold unpackU32
  omega

theorem packU32_unpack (n : Nat) (h : n < 2 ^ 32) :
    ∃ b0 b1 b2 b3, packU32 n = [b0, b1, b2, b3] ∧ unpackU32 b0 b1 b2 b3 = n := by
  exact ⟨_, _, _, _, rfl, unpackU32_packU32 n h⟩

theorem packI32_toNat (i : Int) (h1 : -(2 ^ 31) ≤ i) (h2 : i < 2 ^ 31) :
    unpackI32 ((i % 2 ^ 32).toNat) = i := by
  unfold unpackI32
  split <;> omega

/-! ## UTF-8 codec (model of the CPython str.encode and bytes.decode) -/

/-- A unicode scalar value: a code point that is not a surrogate.  Python
str.encode raises UnicodeEncodeError exactly on non-scalar code points. -/
def scalarB (c : Nat) : Bool :=
  decide (c < 1114112) && (decide (c < 55296) || decide (57344 ≤ c))

/-- Standard UTF-8 encoding of one scalar value. -/
def utf8EncChar (c : Nat) : List Nat :=
  if c < 128 then [c]
  else if c < 2048 then [192 + c / 64, 128 + c % 64]
  else if c < 65536 then [224 + c / 4096, 128 + c / 64 % 64, 128 + c % 64]
  else [240 + c / 262144, 128 + c / 4096 % 64, 128 + c / 64 % 64, 128 + c % 64]

/-- Model of str.encode with the utf-8 codec: fails on non-scalar code
points, otherwise concatenates the per-character encodings. -/
def utf8Encode : List Nat → Option (List Nat)
  | [] => some []
  | c :: s =>
    if scalarB c then
      match utf8Encode s with
      | some e => some (utf8EncChar c ++ e)
      | none => none
    else none

/-- Whether a byte is a UTF-8 continuation byte. -/
def isCont (b : Nat) : Bool := decide (128 ≤ b) && decide (b < 192)

/-- One step of the UTF-8 decoder: given a lead byte and the following
input, produce the decoded code point and the remaining input.  Rejects
continuation leads, overlong forms, surrogates and out-of-range values,
as the CPython utf-8 codec does. -/
def utf8Step (b0 : Nat) (rest : List Nat) : Option (Nat × List Nat) :=
  if b0 < 128 then some (b0, rest)
  else if b0 < 194 then none
  else if b0 < 224 then
    match rest with
    | b1 :: r => if isCont b1 then some ((b0 - 192) * 64 + (b1 - 128), r) else none
    | [] => none
  else if b0 < 240 then
    match rest with
    | b1 :: b2 :: r =>
      if isCont b1 && isCont b2 then
        if (b0 - 224) * 4096 + (b1 - 128) * 64 + (b2 - 128) < 2048 ||
            (55296 ≤ (b0 - 224) * 4096 + (b1 - 128) * 64 + (b2 - 128) &&
             (b0 - 224) * 4096 + (b1 - 128) * 64 + (b2 - 128) < 57344) then none
        else some ((b0 - 224) * 4096 + (b1 - 128) * 64 + (b2 - 128), r)
      else none
    | _ => none
  else if b0 < 245 then
    match rest with
    | b1 :: b2 :: b3 :: r =>
      if isCont b1 && isCont b2 && isCont b3 then
        if (b0 - 240) * 262144 + (b1 - 128) * 4096 + (b2 - 128) * 64 + (b3 - 128) < 65536 ||
            1114112 ≤ (b0 - 240) * 262144 + (b1 - 128) * 4096 + (b2 - 128) * 64 + (b3 - 128) then
          none
        else some ((b0 - 240) * 262144 + (b1 - 128) * 4096 + (b2 - 128) * 64 + (b3 - 128), r)
      else none
    | _ => none
  else none

/-- Fuel-indexed UTF-8 decoding loop.  Every step consumes at least one
byte, so fuel equal to the input length always suffices; the fuel only
serves the termination argument. -/
def utf8DecodeF : Nat → List Nat → Option (List Nat)
  | _, [] => some []
  | 0, _ :: _ => none
  | f + 1, b0 :: rest =>
    match utf8Step b0 rest with
    | none => none
    | some (c, r) => (utf8DecodeF f r).map (fun s => c :: s)

/-- Model of bytes.decode with the utf-8 codec. -/
def utf8Decode (l : List Nat) : Option (List Nat) := utf8DecodeF l.length l

theorem utf8Step_encChar (c : Nat) (hc : scalarB c = true) (e : List Nat) :
    ∃ b0 t, utf8EncChar c = b0 :: t ∧ utf8Step b0 (t ++ e) = some (c, e) := by
  have hc1 : c < 1114112 ∧ (c < 55296 ∨ 57344 ≤ c) := by
    simpa [scalarB, Bool.and_eq_true, Bool.or_eq_true, decide_eq_true_iff] using hc
  unfold utf8EncChar
  by_cases h1 : c < 128
  · refine ⟨c, [], by rw [if_pos h1], ?_⟩
    unfold utf8Step
    rw [if_pos h1]
    rfl
  · by_cases h2 : c < 2048
    · refine ⟨192 + c / 64, [128 + c % 64], by rw [if_neg h1, if_pos h2], ?_⟩
      unfold utf8Step
      have e1 : ¬ (192 + c / 64 < 128) := by omega
      have e2 : ¬ (192 + c / 64 < 194) := by omega
      have e3 : 192 + c / 64 < 224 := by omega
      rw [if_neg e1, if_neg e2, if_pos e3]
      have e4 : isCont (128 + c % 64) = true := by
        simp only [isCont, Bool.and_eq_true, decide_eq_true_iff]; omega
      simp only [List.cons_append, List.nil_append, e4, if_true]
      have e5 : (192 + c / 64 - 192) * 64 + (128 + c % 64 - 128) = c := by omega
      rw [e5]
    · by_cases h3 : c < 65536
      · refine ⟨224 + c / 4096, [128 + c / 64 % 64, 128 + c % 64],
          by rw [if_neg h1, if_neg h2, if_pos h3], ?_⟩
        unfold utf8Step
        have e1 : ¬ (224 + c / 4096 < 128) := by omega
        have e2 : ¬ (224 + c / 4096 < 194) := by omega
        have e3 : ¬ (224 + c / 4096 < 224) := by omega
        have e4 : 224 + c / 4096 < 240 := by omega
        rw [if_neg e1, if_neg e2, if_neg e3, if_pos e4]
        have e5 : (isCont (128 + c / 64 % 64) && isCont (128 + c % 64)) = true := by
          simp only [isCont, Bool.and_eq_true, decide_eq_true_iff]; omega
        simp only [List.cons_append, List.nil_append, e5, if_true]
        have e6 : (224 + c / 4096 - 224) * 4096 + (128 + c / 64 % 64 - 128) * 64 +
            (128 + c % 64 - 128) = c := by omega
        rw [e6]
        have e7 : ¬ (c < 2048 || (55296 ≤ c && c < 57344)) = true := by
          simp only [Bool.or_eq_true, Bool.and_eq_true, decide_eq_true_iff]; omega
        rw [if_neg e7]
      · refine ⟨240 + c / 262144, [128 + c / 4096 % 64, 128 + c / 64 % 64, 128 + c % 64],
          by rw [if_neg h1, if_neg h2, if_neg h3], ?_⟩
        unfold utf8Step
        have e1 : ¬ (240 + c / 262144 < 128) := by omega
        have e2 : ¬ (240 + c / 262144 < 194) := by omega
        have e3 : ¬ (240 + c / 262144 < 224) := by omega
        have e4 : ¬ (240 + c / 262144 < 240) := by omega
        have e5 : 240 + c / 262144 < 245 := by omega
        rw [if_neg e1, if_neg e2, if_neg e3, if_neg e4, if_pos e5]
        have e6 : (isCont (128 + c / 4096 % 64) && isCont (128 + c / 64 % 64) &&
            isCont (128 + c % 64)) = true := by
          simp only [isCont, Bool.and_eq_true, decide_eq_true_iff]; omega
        simp only [List.cons_append, List.nil_append, e6, if_true]
        have e7 : (240 + c / 262144 - 240) * 262144 + (128 + c / 4096 % 64 - 128) * 4096 +
            (128 + c / 64 % 64 - 128) * 64 + (128 + c % 64 - 128) = c := by omega
        rw [e7]
        have e8 : ¬ (c < 65536 || 1114112 ≤ c) = true := by
          simp only [Bool.or_eq_true, decide_eq_true_iff]; omega
        rw [if_neg e8]

theorem utf8Encode_length (s e : List Nat) (h : utf8Encode s = some e) :
    s.length ≤ e.length := by
  induction s generalizing e with
  | nil => simp only [utf8Encode] at h; cases h; simp
  | cons c tl ih =>
    simp only [utf8Encode] at h
    by_cases hc : scalarB c = true
    · rw [if_pos hc] at h
      cases he : utf8Encode tl with
      | none => rw [he] at h; cases h
      | some e' =>
        rw [he] at h
        cases h
        have h1 := ih e' he
        have h2 : 1 ≤ (utf8EncChar c).length := by
          unfold utf8EncChar
          split
          · simp
          · split
            · simp
            · split <;> simp
        simp only [List.length_append, List.length_cons]
        omega
    · rw [if_neg hc] at h; cases h

theorem utf8DecodeF_encode (s : List Nat) : ∀ (e : List Nat) (f : Nat),
    utf8Encode s = some e → s.length ≤ f → utf8DecodeF f e = some s := by
  induction s with
  | nil =>
    intro e f h _
    simp only [utf8Encode] at h
    cases h
    cases f <;> rfl
  | cons c tl ih =>
    intro e f h hf
    simp only [utf8Encode] at h
    by_cases hc : scalarB c = true
    · rw [if_pos hc] at h
      cases he : utf8Encode tl with
      | none => rw [he] at h; cases h
      | some e' =>
        rw [he] at h
        cases h
        obtain ⟨f', rfl⟩ : ∃ f', f = f' + 1 := by
          cases f with
          | zero => simp at hf
          | succ n => exact ⟨n, rfl⟩
        obtain ⟨b0, t, henc, hstep⟩ := utf8Step_encChar c hc e'
        rw [henc, List.cons_append, utf8DecodeF, hstep]
        dsimp only
        rw [ih e' f' he (by simpa using hf)]
        rfl
    · rw [if_neg hc] at h; cases h

/-- UTF-8 round trip: decoding an encoded scalar-value string recovers it. -/
theorem utf8Decode_utf8Encode (s e : List Nat) (h : utf8Encode s = some e) :
    utf8Decode e = some s :=
  utf8DecodeF_encode s e e.length h (utf8Encode_length s e h)

/-! ## JSON text layer (model of the simplejson string scanner and printer)

The printer models simplejson.dumps with its defaults: ensure_ascii
(every character outside 0x20-0x7e is escaped), separators a comma plus
space and a colon plus space.  The scanner models the strict-mode
py_scanstring: short escapes, unicode escapes with surrogate-pair
lookahead, and rejection of raw control characters. -/

def isWs (c : Nat) : Bool := c == 32 || c == 9 || c == 10 || c == 13

def skipWs : List Nat → List Nat
  | [] => []
  | c :: rest => if isWs c then skipWs rest else c :: rest

def isDigit (c : Nat) : Bool := decide (48 ≤ c) && decide (c ≤ 57)

/-- Lowercase hex digit, as printed by the %04x format in simplejson. -/
def hexChar (d : Nat) : Nat := if d < 10 then 48 + d else 87 + d

def hex4 (h : Nat) : List Nat :=
  [hexChar (h / 4096 % 16), hexChar (h / 256 % 16), hexChar (h / 16 % 16), hexChar (h % 16)]

def hexVal (c : Nat) : Option Nat :=
  if 48 ≤ c ∧ c ≤ 57 then some (c - 48)
  else if 97 ≤ c ∧ c ≤ 102 then some (c - 87)
  else if 65 ≤ c ∧ c ≤ 70 then some (c - 55)
  else none

/-- The two-character escapes accepted by the scanner. -/
def escShort (e : Nat) : Option Nat :=
  if e = 34 then some 34
  else if e = 92 then some 92
  else if e = 47 then some 47
  else if e = 98 then some 8
  else if e = 116 then some 9
  else if e = 110 then some 10
  else if e = 102 then some 12
  else if e = 114 then some 13
  else none

/-- Escape one character the way simplejson.dumps with ensure_ascii does:
quote, backslash and the five short control escapes as two-character
escapes, every other character outside 0x20-0x7e as a unicode escape, a
surrogate pair for the astral plane. -/
def escChar (c : Nat) : List Nat :=
  if c = 34 then [92, 34]
  else if c = 92 then [92, 92]
  else if c = 8 then [92, 98]
  else if c = 9 then [92, 116]
  else if c = 10 then [92, 110]
  else if c = 12 then [92, 102]
  else if c = 13 then [92, 114]
  else if c < 32 then 92 :: 117 :: hex4 c
  else if c < 127 then [c]
  else if c < 65536 then 92 :: 117 :: hex4 c
  else 92 :: 117 :: hex4 (55296 + (c - 65536) / 1024) ++ 92 :: 117 :: hex4 (56320 + (c - 65536) % 1024)

def escStr : List Nat → List Nat
  | [] => []
  | c :: s => escChar c ++ escStr s

/-- A printed JSON string: quote, escaped characters, quote. -/
def dumpStr (s : List Nat) : List Nat := 34 :: (escStr s ++ [34])

/-- A token of the string scanner: the closing quote or one character. -/
inductive StrTok where
  | endTok
  | charTok (c : Nat)

/-- Value of four hex digit characters. -/
def hex4Val (h1 h2 h3 h4 : Nat) : Option Nat :=
  match hexVal h1, hexVal h2, hexVal h3, hexVal h4 with
  | some d1, some d2, some d3, some d4 => some (((d1 * 16 + d2) * 16 + d3) * 16 + d4)
  | _, _, _, _ => none

/-- Handling of a unicode escape after its backslash-u prefix: four hex
digits, and for a high surrogate a lookahead for a paired low surrogate,
exactly as the simplejson scanner does. -/
def uEscape : List Nat → Option (Nat × List Nat)
  | h1 :: h2 :: h3 :: h4 :: rest3 =>
    match hex4Val h1 h2 h3 h4 with
    | none => none
    | some h =>
      if 55296 ≤ h ∧ h < 56320 then
        match rest3 with
        | 92 :: 117 :: g1 :: g2 :: g3 :: g4 :: rest4 =>
          match hex4Val g1 g2 g3 g4 with
          | none => none
          | some lo =>
            if 56320 ≤ lo ∧ lo < 57344 then
              some (65536 + (h - 55296) * 1024 + (lo - 56320), rest4)
            else some (h, rest3)
        | _ => some (h, rest3)
      else some (h, rest3)
  | _ => none

/-- One step of the string scanner. -/
def strStep : List Nat → Option (StrTok × List Nat)
  | [] => none
  | c :: rest =>
    if c = 34 then some (.endTok, rest)
    else if c = 92 then
      match rest with
      | [] => none
      | e :: rest2 =>
        if e = 117 then (uEscape rest2).map (fun p => (.charTok p.1, p.2))
        else
          match escShort e with
          | some v => some (.charTok v, rest2)
          | none => none
    else if c < 32 then none
    else some (.charTok c, rest)

/-- Fuel-indexed string scanning loop; every step consumes at least one
character, so fuel beyond the input length always suffices. -/
def parseStrF : Nat → List Nat → Option (List Nat × List Nat)
  | 0, _ => none
  | f + 1, input =>
    match strStep input with
    | none => none
    | some (.endTok, rest) => some ([], rest)
    | some (.charTok c, rest) => (parseStrF f rest).map (fun p => (c :: p.1, p.2))

/-- Scan a JSON string after its opening quote, returning the decoded
characters and the input after the closing quote. -/
def parseStr (input : List Nat) : Option (List Nat × List Nat) :=
  parseStrF (input.length + 1) input

theorem hexVal_hexChar : ∀ d < 16, hexVal (hexChar d) = some d := by decide

theorem hexVal_hexChar_mod (x : Nat) : hexVal (hexChar (x % 16)) = some (x % 16) :=
  hexVal_hexChar (x % 16) (Nat.mod_lt x (by omega))

theorem hex4_cons (h : Nat) (e : List Nat) : hex4 h ++ e = hexChar (h / 4096 % 16) ::
    hexChar (h / 256 % 16) :: hexChar (h / 16 % 16) :: hexChar (h % 16) :: e := rfl

theorem hex4Val_eval (h : Nat) (hh : h < 65536) :
    hex4Val (hexChar (h / 4096 % 16)) (hexChar (h / 256 % 16)) (hexChar (h / 16 % 16))
      (hexChar (h % 16)) = some h := by
  simp only [hex4Val, hexVal_hexChar_mod]
  have hx : ((h / 4096 % 16 * 16 + h / 256 % 16) * 16 + h / 16 % 16) * 16 + h % 16 = h := by omega
  rw [hx]

theorem uEscape_single (h : Nat) (hh : h < 65536) (hns : ¬ (55296 ≤ h ∧ h < 56320))
    (e : List Nat) : uEscape (hex4 h ++ e) = some (h, e) := by
  rw [hex4_cons]
  simp only [uEscape]
  rw [hex4Val_eval h hh]
  dsimp only
  rw [if_neg hns]

theorem uEscape_pair (hi lo : Nat) (hhi : 55296 ≤ hi ∧ hi < 56320)
    (hlo : 56320 ≤ lo ∧ lo < 57344) (e : List Nat) :
    uEscape (hex4 hi ++ 92 :: 117 :: (hex4 lo ++ e)) =
      some (65536 + (hi - 55296) * 1024 + (lo - 56320), e) := by
  rw [hex4_cons lo e, hex4_cons hi]
  simp only [uEscape]
  rw [hex4Val_eval hi (by omega)]
  dsimp only
  rw [if_pos hhi]
  rw [hex4Val_eval lo (by omega)]
  dsimp only
  rw [if_pos hlo]

theorem strStep_escChar (c : Nat) (hc : scalarB c = true) (e : List Nat) :
    strStep (escChar c ++ e) = some (.charTok c, e) := by
  have hc1 : c < 1114112 ∧ (c < 55296 ∨ 57344 ≤ c) := by
    simpa [scalarB, Bool.and_eq_true, Bool.or_eq_true, decide_eq_true_iff] using hc
  by_cases h34 : c = 34
  · subst h34; simp [strStep, escChar, escShort]
  by_cases h92 : c = 92
  · subst h92; simp [strStep, escChar, escShort]
  by_cases h8 : c = 8
  · subst h8; simp [strStep, escChar, escShort]
  by_cases h9 : c = 9
  · subst h9; simp [strStep, escChar, escShort]
  by_cases h10 : c = 10
  · subst h10; simp [strStep, escChar, escShort]
  by_cases h12 : c = 12
  · subst h12; simp [strStep, escChar, escShort]
  by_cases h13 : c = 13
  · subst h13; simp [strStep, escChar, escShort]
  rw [escChar, if_neg h34, if_neg h92, if_neg h8, if_neg h9, if_neg h10, if_neg h12, if_neg h13]
  by_cases hctl : c < 32
  · rw [if_pos hctl]
    simp only [List.cons_append, strStep]
    rw [uEscape_single c (by omega) (by omega) e]
    simp
  · rw [if_neg hctl]
    by_cases hasc : c < 127
    · rw [if_pos hasc]
      simp only [List.cons_append, List.nil_append, strStep]
      rw [if_neg h34, if_neg h92, if_neg (by omega : ¬ c < 32)]
    · rw [if_neg hasc]
      by_cases hbmp : c < 65536
      · rw [if_pos hbmp]
        simp only [List.cons_append, strStep]
        rw [uEscape_single c (by omega) (by omega) e]
        simp
      · rw [if_neg hbmp]
        simp only [List.cons_append, List.append_assoc, strStep]
        rw [uEscape_pair (55296 + (c - 65536) / 1024) (56320 + (c - 65536) % 1024)
          (by omega) (by omega) e]
        have hfin : 65536 + (55296 + (c - 65536) / 1024 - 55296) * 1024 +
            (56320 + (c - 65536) % 1024 - 56320) = c := by omega
        rw [hfin]
        simp

theorem strStep_quote (e : List Nat) : strStep (34 :: e) = some (.endTok, e) := rfl

theorem escChar_length_pos (c : Nat) : 1 ≤ (escChar c).length := by
  unfold escChar
  repeat' split
  all_goals simp [hex4]

theorem escStr_length (s : List Nat) : s.length ≤ (escStr s).length := by
  induction s with
  | nil => simp [escStr]
  | cons c tl ih =>
    simp only [escStr, List.length_append, List.length_cons]
    have := escChar_length_pos c
    omega

theorem parseStrF_escStr (s : List Nat) : ∀ (f : Nat) (rest : List Nat),
    s.all scalarB = true → s.length + 1 ≤ f →
    parseStrF f (escStr s ++ 34 :: rest) = some (s, rest) := by
  induction s with
  | nil =>
    intro f rest _ hf
    obtain ⟨g, rfl⟩ : ∃ g, f = g + 1 := ⟨f - 1, by omega⟩
    rw [show (escStr [] ++ 34 :: rest : List Nat) = 34 :: rest from rfl]
    rw [parseStrF, strStep_quote]
  | cons c tl ih =>
    intro f rest hall hf
    simp only [List.all_cons, Bool.and_eq_true] at hall
    obtain ⟨g, rfl⟩ : ∃ g, f = g + 1 := ⟨f - 1, by omega⟩
    rw [show (escStr (c :: tl) ++ 34 :: rest : List Nat) =
      escChar c ++ (escStr tl ++ 34 :: rest) by simp [escStr]]
    rw [parseStrF, strStep_escChar c hall.1]
    dsimp only
    rw [ih g rest hall.2 (by simp at hf; omega)]
    rfl

/-- Scanning the printed form of a scalar-valued string recovers it and
leaves the suffix after the closing quote. -/
theorem parseStr_escStr (s rest : List Nat) (hall : s.all scalarB = true) :
    parseStr (escStr s ++ 34 :: rest) = some (s, rest) := by
  unfold parseStr
  apply parseStrF_escStr s _ rest hall
  have := escStr_length s
  simp only [List.length_append, List.length_cons]
  omega

/-! ## JSON number layer (ints only; simplejson str(int) printing) -/

def natRepr (n : Nat) : List Nat :=
  if n = 0 then [48] else ((Nat.digits 10 n).reverse).map (fun d => d + 48)

/-- Decimal representation of a Python int, as the printer emits it. -/
def intRepr (i : Int) : List Nat :=
  if i < 0 then 45 :: natRepr i.natAbs else natRepr i.toNat

/-- Greedily take decimal digits off the input, returning their values. -/
def parseDigits : List Nat → List Nat × List Nat
  | [] => ([], [])
  | c :: rest =>
    if isDigit c then ((c - 48) :: (parseDigits rest).1, (parseDigits rest).2)
    else ([], c :: rest)

def digitsVal (ds : List Nat) : Nat := ds.foldl (fun a d => a * 10 + d) 0

/-- The input that follows does not continue a number. -/
def NotDigitHead (rest : List Nat) : Prop :=
  match rest.head? with
  | none => True
  | some c => isDigit c = false

theorem parseDigits_stop (rest : List Nat) (h : NotDigitHead rest) :
    parseDigits rest = ([], rest) := by
  cases rest with
  | nil => rfl
  | cons c r =>
    unfold NotDigitHead at h
    simp only [List.head?_cons] at h
    unfold parseDigits
    rw [if_neg (by simp [h])]

theorem parseDigits_map (ds : List Nat) : ∀ rest : List Nat, (∀ d ∈ ds, d < 10) →
    NotDigitHead rest → parseDigits (ds.map (fun d => d + 48) ++ rest) = (ds, rest) := by
  induction ds with
  | nil => intro rest _ h; simpa using parseDigits_stop rest h
  | cons d tl ih =>
    intro rest hd h
    simp only [List.map_cons, List.cons_append]
    unfold parseDigits
    have hdig : isDigit (d + 48) = true := by
      simp only [isDigit, Bool.and_eq_true, decide_eq_true_iff]
      have := hd d (by simp)
      omega
    rw [if_pos hdig, ih rest (fun x hx => hd x (by simp [hx])) h]
    rw [show d + 48 - 48 = d from by omega]

theorem digitsVal_reverse (l : List Nat) : digitsVal l.reverse = Nat.ofDigits 10 l := by
  induction l with
  | nil => rfl
  | cons d tl ih =>
    simp only [List.reverse_cons, digitsVal, List.foldl_append, List.foldl_cons, List.foldl_nil]
    unfold digitsVal at ih
    rw [ih, Nat.ofDigits_cons]
    ring

theorem parseDigits_natRepr (n : Nat) (rest : List Nat) (h : NotDigitHead rest) :
    ∃ ds, parseDigits (natRepr n ++ rest) = (ds, rest) ∧ digitsVal ds = n ∧ ds ≠ [] := by
  by_cases h0 : n = 0
  · subst h0
    refine ⟨[0], ?_, rfl, by simp⟩
    rw [show (natRepr 0 ++ rest : List Nat) = 48 :: rest from rfl]
    unfold parseDigits
    rw [if_pos (by simp [isDigit]), parseDigits_stop rest h]
  · refine ⟨(Nat.digits 10 n).reverse, ?_, ?_, ?_⟩
    · rw [show natRepr n = ((Nat.digits 10 n).reverse).map (fun d => d + 48) by
        unfold natRepr; rw [if_neg h0]]
      exact parseDigits_map _ rest
        (fun d hd => Nat.digits_lt_base (by omega) (List.mem_reverse.mp hd)) h
    · rw [digitsVal_reverse, Nat.ofDigits_digits]
    · simp [Nat.digits_ne_nil_iff_ne_zero, h0]

/-! ## The Python value universe carried by packet-stream messages -/

mutual

inductive PyVal where
  | pybytes (b : List Nat)
  | pystr (s : List Nat)
  | pyint (n : Int)
  | pybool (b : Bool)
  | pynone
  | pylist (xs : PyList)
  | pydict (kvs : PyDict)

inductive PyList where
  | lnil
  | lcons (v : PyVal) (tl : PyList)

inductive PyDict where
  | dnil
  | dcons (k : List Nat) (v : PyVal) (tl : PyDict)

end

/-- Python truthiness of the values above (bool(x)). -/
def pyTruthy : PyVal → Bool
  | .pybytes b => !b.isEmpty
  | .pystr s => !s.isEmpty
  | .pyint n => n != 0
  | .pybool b => b
  | .pynone => false
  | .pylist .lnil => false
  | .pylist (.lcons _ _) => true
  | .pydict .dnil => false
  | .pydict (.dcons _ _ _) => true

/-- Whether a value is the Python constant True (an "is True" test). -/
def pyIsTrue : PyVal → Bool
  | .pybool true => true
  | _ => false

/-! ## simplejson.dumps (defaults: ensure_ascii, separators comma-space
and colon-space) as a total printer over the json-serializable fragment -/

mutual

def dumpsV : PyVal → List Nat
  | .pybytes _ => []
  | .pystr s => dumpStr s
  | .pyint n => intRepr n
  | .pybool true => [116, 114, 117, 101]
  | .pybool false => [102, 97, 108, 115, 101]
  | .pynone => [110, 117, 108, 108]
  | .pylist a => 91 :: dumpsLBody a
  | .pydict o => 123 :: dumpsDBody o

def dumpsLBody : PyList → List Nat
  | .lnil => [93]
  | .lcons v tl => dumpsV v ++ dumpsLTail tl

def dumpsLTail : PyList → List Nat
  | .lnil => [93]
  | .lcons v tl => 44 :: 32 :: (dumpsV v ++ dumpsLTail tl)

def dumpsDBody : PyDict → List Nat
  | .dnil => [125]
  | .dcons k v tl => dumpStr k ++ 58 :: 32 :: (dumpsV v ++ dumpsDTail tl)

def dumpsDTail : PyDict → List Nat
  | .dnil => [125]
  | .dcons k v tl => 44 :: 32 :: (dumpStr k ++ 58 :: 32 :: (dumpsV v ++ dumpsDTail tl))

end

-- The json-serializable values the model covers: no bytes anywhere
-- (json.dumps raises TypeError on bytes) and scalar-valued strings.  Floats
-- do not occur in the universe at all.
mutual

def jsonOkV : PyVal → Bool
  | .pybytes _ => false
  | .pystr s => s.all scalarB
  | .pyint _ => true
  | .pybool _ => true
  | .pynone => true
  | .pylist a => jsonOkL a
  | .pydict o => jsonOkD o

def jsonOkL : PyList → Bool
  | .lnil => true
  | .lcons v tl => jsonOkV v && jsonOkL tl

def jsonOkD : PyDict → Bool
  | .dnil => true
  | .dcons k v tl => k.all scalarB && jsonOkV v && jsonOkD tl

end

-- Fuel bound used by the parse-of-print lemmas.
mutual

def sizeV : PyVal → Nat
  | .pybytes _ => 1
  | .pystr _ => 1
  | .pyint _ => 1
  | .pybool _ => 1
  | .pynone => 1
  | .pylist a => 1 + sizeL a
  | .pydict o => 1 + sizeD o

def sizeL : PyList → Nat
  | .lnil => 1
  | .lcons v tl => 1 + sizeV v + sizeL tl

def sizeD : PyDict → Nat
  | .dnil => 1
  | .dcons _ v tl => 1 + sizeV v + sizeD tl

end

/-! ## simplejson.loads as a recursive-descent parser -/

/-- Strip an expected literal off the input. -/
def expectPfx : List Nat → List Nat → Option (List Nat)
  | [], input => some input
  | _ :: _, [] => none
  | p :: ps, c :: rest => if c = p then expectPfx ps rest else none

/-- Parse a number: optional minus, one or more digits; a continuation
with a fraction or exponent is a float, which is outside this model. -/
def parseNum (input : List Nat) : Option (PyVal × List Nat) :=
  if input.head? = some 45 then
    match parseDigits input.tail with
    | ([], _) => none
    | (d :: ds, r) =>
      if r.head? = some 46 || r.head? = some 101 || r.head? = some 69 then none
      else some (.pyint (-(digitsVal (d :: ds) : Int)), r)
  else
    match parseDigits input with
    | ([], _) => none
    | (d :: ds, r) =>
      if r.head? = some 46 || r.head? = some 101 || r.head? = some 69 then none
      else some (.pyint ((digitsVal (d :: ds) : Int)), r)

mutual

def parseVal : Nat → List Nat → Option (PyVal × List Nat)
  | 0, _ => none
  | _ + 1, [] => none
  | f + 1, c :: rest =>
    if c = 123 then parseDBody f (skipWs rest)
    else if c = 91 then parseLBody f (skipWs rest)
    else if c = 34 then
      match parseStr rest with
      | none => none
      | some p => some (.pystr p.1, p.2)
    else if c = 116 then
      match expectPfx [114, 117, 101] rest with
      | none => none
      | some r => some (.pybool true, r)
    else if c = 102 then
      match expectPfx [97, 108, 115, 101] rest with
      | none => none
      | some r => some (.pybool false, r)
    else if c = 110 then
      match expectPfx [117, 108, 108] rest with
      | none => none
      | some r => some (.pynone, r)
    else if c = 45 || isDigit c then parseNum (c :: rest)
    else none

def parseLBody : Nat → List Nat → Option (PyVal × List Nat)
  | 0, _ => none
  | _ + 1, [] => none
  | f + 1, c :: rest =>
    if c = 93 then some (.pylist .lnil, rest)
    else
      match parseVal f (c :: rest) with
      | none => none
      | some (v, r) =>
        match parseLTail f (skipWs r) with
        | none => none
        | some (tl, r2) => some (.pylist (.lcons v tl), r2)

def parseLTail : Nat → List Nat → Option (PyList × List Nat)
  | 0, _ => none
  | _ + 1, [] => none
  | f + 1, c :: rest =>
    if c = 93 then some (.lnil, rest)
    else if c = 44 then
      match parseVal f (skipWs rest) with
      | none => none
      | some (v, r) =>
        match parseLTail f (skipWs r) with
        | none => none
        | some (tl, r2) => some (.lcons v tl, r2)
    else none

def parseDBody : Nat → List Nat → Option (PyVal × List Nat)
  | 0, _ => none
  | _ + 1, [] => none
  | f + 1, c :: rest =>
    if c = 125 then some (.pydict .dnil, rest)
    else if c = 34 then
      match parseStr rest with
      | none => none
      | some (k, r1) =>
        if (skipWs r1).head? = some 58 then
          match parseVal f (skipWs (skipWs r1).tail) with
          | none => none
          | some (v, r2) =>
            match parseDTail f (skipWs r2) with
            | none => none
            | some (tl, r3) => some (.pydict (.dcons k v tl), r3)
        else none
    else none

def parseDTail : Nat → List Nat → Option (PyDict × List Nat)
  | 0, _ => none
  | _ + 1, [] => none
  | f + 1, c :: rest =>
    if c = 125 then some (.dnil, rest)
    else if c = 44 then
      if (skipWs rest).head? = some 34 then
        match parseStr (skipWs rest).tail with
        | none => none
        | some (k, r1) =>
          if (skipWs r1).head? = some 58 then
            match parseVal f (skipWs (skipWs r1).tail) with
            | none => none
            | some (v, r2) =>
              match parseDTail f (skipWs r2) with
              | none => none
              | some (tl, r3) => some (.dcons k v tl, r3)
          else none
      else none
    else none

end

/-- Model of simplejson.loads: parse one value, allow surrounding
whitespace, reject trailing input.  The fuel is always sufficient because
every recursive parser step consumes input (see the parse-of-print
lemmas). -/
def loads (input : List Nat) : Option PyVal :=
  match parseVal (2 * input.length + 2) (skipWs input) with
  | none => none
  | some (v, rest) => if skipWs rest = [] then some v else none

theorem expectPfx_append (p rest : List Nat) : expectPfx p (p ++ rest) = some rest := by
  induction p with
  | nil => rfl
  | cons c ps ih =>
    simp only [List.cons_append]
    unfold expectPfx
    rw [if_pos rfl, ih]

/-- The input ahead is empty or starts with a JSON delimiter, as it always
does after a printed value inside a printed document. -/
def DelimHead (rest : List Nat) : Prop :=
  match rest.head? with
  | none => True
  | some c => c = 44 ∨ c = 93 ∨ c = 125

theorem delimHead_nil : DelimHead [] := trivial

theorem delimHead_cons (c : Nat) (r : List Nat) (h : c = 44 ∨ c = 93 ∨ c = 125) :
    DelimHead (c :: r) := h

theorem delimHead_notDigit (rest : List Nat) (h : DelimHead rest) : NotDigitHead rest := by
  cases rest with
  | nil => trivial
  | cons c r =>
    unfold NotDigitHead
    unfold DelimHead at h
    simp only [List.head?_cons] at h ⊢
    simp only [isDigit, Bool.and_eq_false_iff, decide_eq_false_iff_not]
    omega

theorem skipWs_notWs (l : List Nat) (h : ∀ c r, l = c :: r → isWs c = false) :
    skipWs l = l := by
  cases l with
  | nil => rfl
  | cons c r =>
    unfold skipWs
    rw [if_neg (by simp [h c r rfl])]

theorem skipWs_32 (l : List Nat) : skipWs (32 :: l) = skipWs l := by
  simp [skipWs, isWs]

theorem natRepr_shape (n : Nat) : ∃ c t, natRepr n = c :: t ∧ 48 ≤ c ∧ c ≤ 57 := by
  by_cases h0 : n = 0
  · exact ⟨48, [], by simp [natRepr, h0], by omega, by omega⟩
  · unfold natRepr
    rw [if_neg h0]
    cases hd : (Nat.digits 10 n).reverse with
    | nil =>
      exfalso
      have : Nat.digits 10 n = [] := by simpa using congrArg List.reverse hd
      exact h0 (by simpa [Nat.digits_eq_nil_iff_eq_zero] using this)
    | cons d t =>
      refine ⟨d + 48, t.map (fun d => d + 48), by simp, ?_, ?_⟩
      · omega
      · have hdlt : d < 10 := by
          have hmem : d ∈ Nat.digits 10 n := by
            have : d ∈ (Nat.digits 10 n).reverse := by rw [hd]; simp
            simpa using this
          exact Nat.digits_lt_base (by omega) hmem
        omega

/-- Heads a printed JSON value can start with. -/
def ValHead (c : Nat) : Prop :=
  c = 123 ∨ c = 91 ∨ c = 34 ∨ c = 116 ∨ c = 102 ∨ c = 110 ∨ c = 45 ∨ (48 ≤ c ∧ c ≤ 57)

theorem valHead_facts (c : Nat) (h : ValHead c) :
    c ≠ 93 ∧ c ≠ 125 ∧ c ≠ 44 ∧ isWs c = false := by
  unfold ValHead at h
  refine ⟨by omega, by omega, by omega, ?_⟩
  simp only [isWs, Bool.or_eq_false_iff, beq_eq_false_iff_ne]
  omega

theorem dumpsV_shape (v : PyVal) (hok : jsonOkV v = true) :
    ∃ c t, dumpsV v = c :: t ∧ ValHead c := by
  cases v with
  | pybytes b => simp [jsonOkV] at hok
  | pystr s =>
    exact ⟨34, escStr s ++ [34], by simp [dumpsV, dumpStr], Or.inr (Or.inr (Or.inl rfl))⟩
  | pyint n =>
    unfold dumpsV intRepr
    by_cases hneg : n < 0
    · rw [if_pos hneg]
      exact ⟨45, natRepr n.natAbs, rfl, by unfold ValHead; omega⟩
    · rw [if_neg hneg]
      obtain ⟨c, t, hshape, h1, h2⟩ := natRepr_shape n.toNat
      exact ⟨c, t, hshape, by unfold ValHead; omega⟩
  | pybool b =>
    cases b with
    | true => exact ⟨116, _, rfl, by unfold ValHead; omega⟩
    | false => exact ⟨102, _, rfl, by unfold ValHead; omega⟩
  | pynone => exact ⟨110, _, rfl, by unfold ValHead; omega⟩
  | pylist a => exact ⟨91, _, rfl, by unfold ValHead; omega⟩
  | pydict o => exact ⟨123, _, rfl, by unfold ValHead; omega⟩

theorem parseNum_intRepr (i : Int) (rest : List Nat) (hrest : DelimHead rest) :
    parseNum (intRepr i ++ rest) = some (.pyint i, rest) := by
  have hnd := delimHead_notDigit rest hrest
  have hfloat : (rest.head? = some 46 || rest.head? = some 101 || rest.head? = some 69) = false := by
    cases rest with
    | nil => rfl
    | cons c r =>
      unfold DelimHead at hrest
      simp only [List.head?_cons] at hrest
      simp only [List.head?_cons, Bool.or_eq_false_iff, decide_eq_false_iff_not,
        Option.some.injEq]
      omega
  by_cases hneg : i < 0
  · unfold intRepr
    rw [if_pos hneg]
    unfold parseNum
    simp only [List.cons_append, List.head?_cons, List.tail_cons, if_true]
    obtain ⟨ds, hpd, hval, hne⟩ := parseDigits_natRepr i.natAbs rest hnd
    rw [hpd]
    cases ds with
    | nil => exact absurd rfl hne
    | cons d dtl =>
      simp only
      rw [if_neg (by simp [hfloat])]
      rw [hval]
      have hx : -((i.natAbs : Int)) = i := by omega
      rw [hx]
  · unfold intRepr
    rw [if_neg hneg]
    obtain ⟨c, t, hshape, h48, h57⟩ := natRepr_shape i.toNat
    obtain ⟨ds, hpd, hval, hne⟩ := parseDigits_natRepr i.toNat rest hnd
    unfold parseNum
    rw [hshape]
    rw [hshape] at hpd
    simp only [List.cons_append, List.head?_cons] at hpd ⊢
    rw [if_neg (by simp only [Option.some.injEq]; omega)]
    rw [hpd]
    cases ds with
    | nil => exact absurd rfl hne
    | cons d dtl =>
      simp only
      rw [if_neg (by simp [hfloat])]
      rw [hval]
      have hx : ((i.toNat : Int)) = i := by omega
      rw [hx]

theorem parseVal_cons (f c : Nat) (rest : List Nat) : parseVal (f + 1) (c :: rest) =
    (if c = 123 then parseDBody f (skipWs rest)
    else if c = 91 then parseLBody f (skipWs rest)
    else if c = 34 then
      match parseStr rest with
      | none => none
      | some p => some (.pystr p.1, p.2)
    else if c = 116 then
      match expectPfx [114, 117, 101] rest with
      | none => none
      | some r => some (.pybool true, r)
    else if c = 102 then
      match expectPfx [97, 108, 115, 101] rest with
      | none => none
      | some r => some (.pybool false, r)
    else if c = 110 then
      match expectPfx [117, 108, 108] rest with
      | none => none
      | some r => some (.pynone, r)
    else if c = 45 || isDigit c then parseNum (c :: rest)
    else none) := by rw [parseVal]

theorem parseLBody_cons (f c : Nat) (rest : List Nat) : parseLBody (f + 1) (c :: rest) =
    (if c = 93 then some (.pylist .lnil, rest)
    else
      match parseVal f (c :: rest) with
      | none => none
      | some (v, r) =>
        match parseLTail f (skipWs r) with
        | none => none
        | some (tl, r2) => some (.pylist (.lcons v tl), r2)) := by rw [parseLBody]

theorem parseLTail_cons (f c : Nat) (rest : List Nat) : parseLTail (f + 1) (c :: rest) =
    (if c = 93 then some (.lnil, rest)
    else if c = 44 then
      match parseVal f (skipWs rest) with
      | none => none
      | some (v, r) =>
        match parseLTail f (skipWs r) with
        | none => none
        | some (tl, r2) => some (.lcons v tl, r2)
    else none) := by rw [parseLTail]

theorem parseDBody_cons (f c : Nat) (rest : List Nat) : parseDBody (f + 1) (c :: rest) =
    (if c = 125 then some (.pydict .dnil, rest)
    else if c = 34 then
      match parseStr rest with
      | none => none
      | some (k, r1) =>
        if (skipWs r1).head? = some 58 then
          match parseVal f (skipWs (skipWs r1).tail) with
          | none => none
          | some (v, r2) =>
            match parseDTail f (skipWs r2) with
            | none => none
            | some (tl, r3) => some (.pydict (.dcons k v tl), r3)
        else none
    else none) := by rw [parseDBody]

theorem parseDTail_cons (f c : Nat) (rest : List Nat) : parseDTail (f + 1) (c :: rest) =
    (if c = 125 then some (.dnil, rest)
    else if c = 44 then
      if (skipWs rest).head? = some 34 then
        match parseStr (skipWs rest).tail with
        | none => none
        | some (k, r1) =>
          if (skipWs r1).head? = some 58 then
            match parseVal f (skipWs (skipWs r1).tail) with
            | none => none
            | some (v, r2) =>
              match parseDTail f (skipWs r2) with
              | none => none
              | some (tl, r3) => some (.dcons k v tl, r3)
          else none
      else none
    else none) := by rw [parseDTail]

theorem skipWs_cons (c : Nat) (l : List Nat) (h : isWs c = false) :
    skipWs (c :: l) = c :: l := by
  simp [skipWs, h]

theorem intRepr_head (i : Int) :
    ∃ c t, intRepr i = c :: t ∧ (c = 45 ∨ (48 ≤ c ∧ c ≤ 57)) := by
  unfold intRepr
  by_cases hneg : i < 0
  · rw [if_pos hneg]
    exact ⟨45, _, rfl, Or.inl rfl⟩
  · rw [if_neg hneg]
    obtain ⟨c, t, hshape, h1, h2⟩ := natRepr_shape i.toNat
    exact ⟨c, t, hshape, Or.inr ⟨h1, h2⟩⟩

theorem numHead_cond (c : Nat) (h : c = 45 ∨ (48 ≤ c ∧ c ≤ 57)) :
    (c = 45 || isDigit c) = true := by
  rcases h with h | h
  · simp [h]
  · simp only [isDigit, Bool.or_eq_true, Bool.and_eq_true, decide_eq_true_iff]
    omega

theorem numHead_valHead (c : Nat) (h : c = 45 ∨ (48 ≤ c ∧ c ≤ 57)) :
    c ≠ 123 ∧ c ≠ 91 ∧ c ≠ 34 ∧ c ≠ 116 ∧ c ≠ 102 ∧ c ≠ 110 := by
  refine ⟨?_, ?_, ?_, ?_, ?_, ?_⟩ <;> omega

theorem delim_dumpsLTail (tl : PyList) (rest : List Nat) :
    DelimHead (dumpsLTail tl ++ rest) := by
  cases tl with
  | lnil => exact delimHead_cons 93 rest (by omega)
  | lcons v t => exact delimHead_cons 44 _ (by omega)

theorem delim_dumpsDTail (tl : PyDict) (rest : List Nat) :
    DelimHead (dumpsDTail tl ++ rest) := by
  cases tl with
  | dnil => exact delimHead_cons 125 rest (by omega)
  | dcons k v t => exact delimHead_cons 44 _ (by omega)

theorem skipWs_dumpsV (v : PyVal) (hok : jsonOkV v = true) (l : List Nat) :
    skipWs (dumpsV v ++ l) = dumpsV v ++ l := by
  obtain ⟨c, t, hsh, hvh⟩ := dumpsV_shape v hok
  rw [hsh, List.cons_append, skipWs_cons _ _ (valHead_facts c hvh).2.2.2]

theorem skipWs_dumpsLTail (tl : PyList) (l : List Nat) :
    skipWs (dumpsLTail tl ++ l) = dumpsLTail tl ++ l := by
  cases tl with
  | lnil => exact skipWs_cons 93 l (by simp [isWs])
  | lcons v t =>
    simp only [dumpsLTail, List.cons_append]
    exact skipWs_cons 44 _ (by simp [isWs])

theorem skipWs_dumpsDTail (tl : PyDict) (l : List Nat) :
    skipWs (dumpsDTail tl ++ l) = dumpsDTail tl ++ l := by
  cases tl with
  | dnil => exact skipWs_cons 125 l (by simp [isWs])
  | dcons k v t =>
    simp only [dumpsDTail, List.cons_append]
    exact skipWs_cons 44 _ (by simp [isWs])

theorem skipWs_dumpsLBody (a : PyList) (hok : jsonOkL a = true) (l : List Nat) :
    skipWs (dumpsLBody a ++ l) = dumpsLBody a ++ l := by
  cases a with
  | lnil => exact skipWs_cons 93 l (by simp [isWs])
  | lcons v t =>
    simp only [dumpsLBody, List.append_assoc]
    apply skipWs_dumpsV v
    simp only [jsonOkL, Bool.and_eq_true] at hok
    exact hok.1

theorem skipWs_dumpsDBody (o : PyDict) (hok : jsonOkD o = true) (l : List Nat) :
    skipWs (dumpsDBody o ++ l) = dumpsDBody o ++ l := by
  cases o with
  | dnil => exact skipWs_cons 125 l (by simp [isWs])
  | dcons k v t =>
    simp only [dumpsDBody, dumpStr, List.cons_append]
    exact skipWs_cons 34 _ (by simp [isWs])

mutual

theorem parseVal_dumps (v : PyVal) : ∀ (f : Nat) (rest : List Nat), jsonOkV v = true →
    sizeV v ≤ f → DelimHead rest → parseVal f (dumpsV v ++ rest) = some (v, rest) := by
  cases v with
  | pybytes b =>
    intro f rest hok _ _
    simp [jsonOkV] at hok
  | pystr s =>
    intro f rest hok hsz hrest
    have hall : s.all scalarB = true := by simpa [jsonOkV] using hok
    obtain ⟨g, rfl⟩ : ∃ g, f = g + 1 := ⟨f - 1, by simp [sizeV] at hsz; omega⟩
    rw [show (dumpsV (.pystr s) ++ rest : List Nat) = 34 :: (escStr s ++ 34 :: rest) by
      simp [dumpsV, dumpStr]]
    rw [parseVal_cons]
    rw [if_neg (by decide), if_neg (by decide), if_pos rfl]
    rw [parseStr_escStr s rest hall]
  | pyint n =>
    intro f rest hok hsz hrest
    obtain ⟨g, rfl⟩ : ∃ g, f = g + 1 := ⟨f - 1, by simp [sizeV] at hsz; omega⟩
    obtain ⟨c, t, hshape, hc⟩ := intRepr_head n
    obtain ⟨hn1, hn2, hn3, hn4, hn5, hn6⟩ := numHead_valHead c hc
    rw [show (dumpsV (.pyint n) ++ rest : List Nat) = c :: (t ++ rest) by
      simp [dumpsV, hshape]]
    rw [parseVal_cons]
    rw [if_neg hn1, if_neg hn2, if_neg hn3, if_neg hn4, if_neg hn5, if_neg hn6,
      if_pos (numHead_cond c hc)]
    rw [show (c :: (t ++ rest) : List Nat) = intRepr n ++ rest by rw [hshape]; simp]
    exact parseNum_intRepr n rest hrest
  | pybool b =>
    intro f rest _ hsz hrest
    obtain ⟨g, rfl⟩ : ∃ g, f = g + 1 := ⟨f - 1, by simp [sizeV] at hsz; omega⟩
    cases b with
    | true =>
      rw [show (dumpsV (.pybool true) ++ rest : List Nat) =
        116 :: ([114, 117, 101] ++ rest) from rfl]
      rw [parseVal_cons]
      rw [if_neg (by decide), if_neg (by decide), if_neg (by decide), if_pos rfl]
      rw [expectPfx_append]
    | false =>
      rw [show (dumpsV (.pybool false) ++ rest : List Nat) =
        102 :: ([97, 108, 115, 101] ++ rest) from rfl]
      rw [parseVal_cons]
      rw [if_neg (by decide), if_neg (by decide), if_neg (by decide), if_neg (by decide),
        if_pos rfl]
      rw [expectPfx_append]
  | pynone =>
    intro f rest _ hsz hrest
    obtain ⟨g, rfl⟩ : ∃ g, f = g + 1 := ⟨f - 1, by simp [sizeV] at hsz; omega⟩
    rw [show (dumpsV .pynone ++ rest : List Nat) = 110 :: ([117, 108, 108] ++ rest) from rfl]
    rw [parseVal_cons]
    rw [if_neg (by decide), if_neg (by decide), if_neg (by decide), if_neg (by decide),
      if_neg (by decide), if_pos rfl]
    rw [expectPfx_append]
  | pylist a =>
    intro f rest hok hsz hrest
    have hokL : jsonOkL a = true := by simpa [jsonOkV] using hok
    obtain ⟨g, rfl⟩ : ∃ g, f = g + 1 := ⟨f - 1, by simp [sizeV] at hsz; omega⟩
    rw [show (dumpsV (.pylist a) ++ rest : List Nat) = 91 :: (dumpsLBody a ++ rest) by
      simp [dumpsV]]
    rw [parseVal_cons]
    rw [if_neg (by decide), if_pos rfl]
    rw [skipWs_dumpsLBody a hokL rest]
    exact parseLBody_dumps a g rest hokL (by simp [sizeV] at hsz; omega) hrest
  | pydict o =>
    intro f rest hok hsz hrest
    have hokD : jsonOkD o = true := by simpa [jsonOkV] using hok
    obtain ⟨g, rfl⟩ : ∃ g, f = g + 1 := ⟨f - 1, by simp [sizeV] at hsz; omega⟩
    rw [show (dumpsV (.pydict o) ++ rest : List Nat) = 123 :: (dumpsDBody o ++ rest) by
      simp [dumpsV]]
    rw [parseVal_cons]
    rw [if_pos rfl]
    rw [skipWs_dumpsDBody o hokD rest]
    exact parseDBody_dumps o g rest hokD (by simp [sizeV] at hsz; omega) hrest

theorem parseLBody_dumps (a : PyList) : ∀ (f : Nat) (rest : List Nat), jsonOkL a = true →
    sizeL a ≤ f → DelimHead rest →
    parseLBody f (dumpsLBody a ++ rest) = some (.pylist a, rest) := by
  cases a with
  | lnil =>
    intro f rest _ hsz _
    obtain ⟨g, rfl⟩ : ∃ g, f = g + 1 := ⟨f - 1, by simp [sizeL] at hsz; omega⟩
    rw [show (dumpsLBody .lnil ++ rest : List Nat) = 93 :: rest from rfl]
    rw [parseLBody_cons, if_pos rfl]
  | lcons v tl =>
    intro f rest hok hsz hrest
    simp only [jsonOkL, Bool.and_eq_true] at hok
    obtain ⟨g, rfl⟩ : ∃ g, f = g + 1 := ⟨f - 1, by simp [sizeL] at hsz; omega⟩
    have hszg : sizeV v + sizeL tl ≤ g := by simp [sizeL] at hsz; omega
    obtain ⟨c, t, hsh, hvh⟩ := dumpsV_shape v hok.1
    rw [show (dumpsLBody (.lcons v tl) ++ rest : List Nat) =
      c :: (t ++ (dumpsLTail tl ++ rest)) by simp [dumpsLBody, hsh]]
    rw [parseLBody_cons]
    rw [if_neg (valHead_facts c hvh).1]
    rw [show (c :: (t ++ (dumpsLTail tl ++ rest)) : List Nat) =
      dumpsV v ++ (dumpsLTail tl ++ rest) by rw [hsh]; simp]
    rw [parseVal_dumps v g (dumpsLTail tl ++ rest) hok.1 (by omega)
      (delim_dumpsLTail tl rest)]
    dsimp only
    rw [skipWs_dumpsLTail tl rest]
    rw [parseLTail_dumps tl g rest hok.2 (by omega) hrest]

theorem parseLTail_dumps (a : PyList) : ∀ (f : Nat) (rest : List Nat), jsonOkL a = true →
    sizeL a ≤ f → DelimHead rest → parseLTail f (dumpsLTail a ++ rest) = some (a, rest) := by
  cases a with
  | lnil =>
    intro f rest _ hsz _
    obtain ⟨g, rfl⟩ : ∃ g, f = g + 1 := ⟨f - 1, by simp [sizeL] at hsz; omega⟩
    rw [show (dumpsLTail .lnil ++ rest : List Nat) = 93 :: rest from rfl]
    rw [parseLTail_cons, if_pos rfl]
  | lcons v tl =>
    intro f rest hok hsz hrest
    simp only [jsonOkL, Bool.and_eq_true] at hok
    obtain ⟨g, rfl⟩ : ∃ g, f = g + 1 := ⟨f - 1, by simp [sizeL] at hsz; omega⟩
    have hszg : sizeV v + sizeL tl ≤ g := by simp [sizeL] at hsz; omega
    rw [show (dumpsLTail (.lcons v tl) ++ rest : List Nat) =
      44 :: (32 :: (dumpsV v ++ (dumpsLTail tl ++ rest))) by simp [dumpsLTail]]
    rw [parseLTail_cons]
    rw [if_neg (by decide), if_pos rfl]
    rw [skipWs_32, skipWs_dumpsV v hok.1]
    rw [parseVal_dumps v g (dumpsLTail tl ++ rest) hok.1 (by omega)
      (delim_dumpsLTail tl rest)]
    dsimp only
    rw [skipWs_dumpsLTail tl rest]
    rw [parseLTail_dumps tl g rest hok.2 (by omega) hrest]

theorem parseDBody_dumps (o : PyDict) : ∀ (f : Nat) (rest : List Nat), jsonOkD o = true →
    sizeD o ≤ f → DelimHead rest →
    parseDBody f (dumpsDBody o ++ rest) = some (.pydict o, rest) := by
  cases o with
  | dnil =>
    intro f rest _ hsz _
    obtain ⟨g, rfl⟩ : ∃ g, f = g + 1 := ⟨f - 1, by simp [sizeD] at hsz; omega⟩
    rw [show (dumpsDBody .dnil ++ rest : List Nat) = 125 :: rest from rfl]
    rw [parseDBody_cons, if_pos rfl]
  | dcons k v tl =>
    intro f rest hok hsz hrest
    simp only [jsonOkD, Bool.and_eq_true] at hok
    obtain ⟨⟨hk, hv⟩, htl⟩ := hok
    obtain ⟨g, rfl⟩ : ∃ g, f = g + 1 := ⟨f - 1, by simp [sizeD] at hsz; omega⟩
    have hszg : sizeV v + sizeD tl ≤ g := by simp [sizeD] at hsz; omega
    rw [show (dumpsDBody (.dcons k v tl) ++ rest : List Nat) =
      34 :: (escStr k ++ 34 :: (58 :: (32 :: (dumpsV v ++ (dumpsDTail tl ++ rest))))) by
      simp [dumpsDBody, dumpStr]]
    rw [parseDBody_cons]
    rw [if_neg (by decide), if_pos rfl]
    rw [parseStr_escStr k _ hk]
    dsimp only
    rw [skipWs_cons 58 _ (by simp [isWs])]
    simp only [List.head?_cons, List.tail_cons, if_true]
    rw [skipWs_32, skipWs_dumpsV v hv]
    rw [parseVal_dumps v g (dumpsDTail tl ++ rest) hv (by omega) (delim_dumpsDTail tl rest)]
    dsimp only
    rw [skipWs_dumpsDTail tl rest]
    rw [parseDTail_dumps tl g rest htl (by omega) hrest]

theorem parseDTail_dumps (a : PyDict) : ∀ (f : Nat) (rest : List Nat), jsonOkD a = true →
    sizeD a ≤ f → DelimHead rest → parseDTail f (dumpsDTail a ++ rest) = some (a, rest) := by
  cases a with
  | dnil =>
    intro f rest _ hsz _
    obtain ⟨g, rfl⟩ : ∃ g, f = g + 1 := ⟨f - 1, by simp [sizeD] at hsz; omega⟩
    rw [show (dumpsDTail .dnil ++ rest : List Nat) = 125 :: rest from rfl]
    rw [parseDTail_cons, if_pos rfl]
  | dcons k v tl =>
    intro f rest hok hsz hrest
    simp only [jsonOkD, Bool.and_eq_true] at hok
    obtain ⟨⟨hk, hv⟩, htl⟩ := hok
    obtain ⟨g, rfl⟩ : ∃ g, f = g + 1 := ⟨f - 1, by simp [sizeD] at hsz; omega⟩
    have hszg : sizeV v + sizeD tl ≤ g := by simp [sizeD] at hsz; omega
    rw [show (dumpsDTail (.dcons k v tl) ++ rest : List Nat) =
      44 :: (32 :: (34 :: (escStr k ++ 34 ::
        (58 :: (32 :: (dumpsV v ++ (dumpsDTail tl ++ rest))))))) by
      simp [dumpsDTail, dumpStr]]
    rw [parseDTail_cons]
    rw [if_neg (by decide), if_pos rfl]
    rw [skipWs_32, skipWs_cons 34 _ (by simp [isWs])]
    simp only [List.head?_cons, List.tail_cons, if_true]
    rw [parseStr_escStr k _ hk]
    dsimp only
    rw [skipWs_cons 58 _ (by simp [isWs])]
    simp only [List.head?_cons, List.tail_cons, if_true]
    rw [skipWs_32, skipWs_dumpsV v hv]
    rw [parseVal_dumps v g (dumpsDTail tl ++ rest) hv (by omega) (delim_dumpsDTail tl rest)]
    dsimp only
    rw [skipWs_dumpsDTail tl rest]
    rw [parseDTail_dumps tl g rest htl (by omega) hrest]

end

mutual

theorem sizeBoundV (v : PyVal) : jsonOkV v = true → sizeV v + 1 ≤ 2 * (dumpsV v).length := by
  cases v with
  | pybytes b => intro hok; simp [jsonOkV] at hok
  | pystr s =>
    intro _
    simp only [sizeV, dumpsV, dumpStr, List.length_cons, List.length_append]
    omega
  | pyint n =>
    intro _
    obtain ⟨c, t, hshape, _⟩ := intRepr_head n
    simp only [sizeV, dumpsV, hshape, List.length_cons]
    omega
  | pybool b =>
    intro _
    cases b <;> simp [sizeV, dumpsV]
  | pynone => intro _; simp [sizeV, dumpsV]
  | pylist a =>
    intro hok
    have hokL : jsonOkL a = true := by simpa [jsonOkV] using hok
    have := sizeBoundLBody a hokL
    simp only [sizeV, dumpsV, List.length_cons]
    omega
  | pydict o =>
    intro hok
    have hokD : jsonOkD o = true := by simpa [jsonOkV] using hok
    have := sizeBoundDBody o hokD
    simp only [sizeV, dumpsV, List.length_cons]
    omega

theorem sizeBoundLBody (a : PyList) : jsonOkL a = true →
    sizeL a ≤ 2 * (dumpsLBody a).length := by
  cases a with
  | lnil => intro _; simp [sizeL, dumpsLBody]
  | lcons v tl =>
    intro hok
    simp only [jsonOkL, Bool.and_eq_true] at hok
    have h1 := sizeBoundV v hok.1
    have h2 := sizeBoundLTail tl hok.2
    simp only [sizeL, dumpsLBody, List.length_append]
    omega

theorem sizeBoundLTail (a : PyList) : jsonOkL a = true →
    sizeL a ≤ 2 * (dumpsLTail a).length := by
  cases a with
  | lnil => intro _; simp [sizeL, dumpsLTail]
  | lcons v tl =>
    intro hok
    simp only [jsonOkL, Bool.and_eq_true] at hok
    have h1 := sizeBoundV v hok.1
    have h2 := sizeBoundLTail tl hok.2
    simp only [sizeL, dumpsLTail, List.length_cons, List.length_append]
    omega

theorem sizeBoundDBody (o : PyDict) : jsonOkD o = true →
    sizeD o ≤ 2 * (dumpsDBody o).length := by
  cases o with
  | dnil => intro _; simp [sizeD, dumpsDBody]
  | dcons k v tl =>
    intro hok
    simp only [jsonOkD, Bool.and_eq_true] at hok
    have h1 := sizeBoundV v hok.1.2
    have h2 := sizeBoundDTail tl hok.2
    simp only [sizeD, dumpsDBody, List.length_cons, List.length_append]
    omega

theorem sizeBoundDTail (o : PyDict) : jsonOkD o = true →
    sizeD o ≤ 2 * (dumpsDTail o).length := by
  cases o with
  | dnil => intro _; simp [sizeD, dumpsDTail]
  | dcons k v tl =>
    intro hok
    simp only [jsonOkD, Bool.and_eq_true] at hok
    have h1 := sizeBoundV v hok.1.2
    have h2 := sizeBoundDTail tl hok.2
    simp only [sizeD, dumpsDTail, List.length_cons, List.length_append]
    omega

end

/-- JSON round trip at the simplejson interface: parsing the printed form
of a json-serializable value recovers the value. -/
theorem loads_dumps (v : PyVal) (hok : jsonOkV v = true) : loads (dumpsV v) = some v := by
  unfold loads
  have h1 : skipWs (dumpsV v) = dumpsV v := by
    have h := skipWs_dumpsV v hok []
    simpa using h
  rw [h1]
  have h2 := parseVal_dumps v (2 * (dumpsV v).length + 2) [] hok
    (by have := sizeBoundV v hok; omega) delimHead_nil
  rw [show (dumpsV v ++ [] : List Nat) = dumpsV v by simp] at h2
  rw [h2]
  rfl

/-! ## Packet-stream messages (src/ssb/packet_stream.py) -/

/-- Python exceptions the embedded code can raise. -/
inductive PyErr where
  | valueError
  | unicodeDecodeError
  | jsonDecodeError
  | unicodeEncodeError
  | typeError
  | assertionError
  | structError
  | keyError
  | muxRPCAPIException
  | notConnectedException
deriving Repr, DecidableEq

/-- PSMessageType: available message types. -/
inductive PSMessageType where
  | BUFFER
  | TEXT
  | JSON
deriving Repr, DecidableEq

def PSMessageType.value : PSMessageType → Nat
  | .BUFFER => 0
  | .TEXT => 1
  | .JSON => 2

/-- The PSMessageType enum constructor: ValueError outside 0, 1, 2. -/
def psMessageTypeOfValue : Nat → Option PSMessageType
  | 0 => some .BUFFER
  | 1 => some .TEXT
  | 2 => some .JSON
  | _ => none

/-- A packet-stream message: type, decoded body, stream and end-or-error
flags, optional request id. -/
structure PSMessage where
  type : PSMessageType
  body : PyVal
  stream : Bool
  end_err : Bool
  req : Option Int

-- Whether a Python value contains bytes anywhere; json.dumps raises
-- TypeError exactly then (on this value universe).
mutual

def hasBytesV : PyVal → Bool
  | .pybytes _ => true
  | .pystr _ => false
  | .pyint _ => false
  | .pybool _ => false
  | .pynone => false
  | .pylist a => hasBytesL a
  | .pydict o => hasBytesD o

def hasBytesL : PyList → Bool
  | .lnil => false
  | .lcons v tl => hasBytesV v || hasBytesL tl

def hasBytesD : PyDict → Bool
  | .dnil => false
  | .dcons _ v tl => hasBytesV v || hasBytesD tl

end

/-- PSMessage.data: the raw message data.  Mirrors the Python property
line by line: the True sentinel prints as the bytes "true"; a TEXT body
must be a str (assert) and is UTF-8 encoded; a JSON body must be a dict
(assert) and is serialized; otherwise the body must be bytes (assert). -/
def PSMessage.data (m : PSMessage) : Except PyErr (List Nat) :=
  if pyIsTrue m.body then .ok [116, 114, 117, 101]
  else if m.type = .TEXT then
    match m.body with
    | .pystr s =>
      match utf8Encode s with
      | some e => .ok e
      | none => .error .unicodeEncodeError
    | _ => .error .assertionError
  else if m.type = .JSON then
    match m.body with
    | .pydict o =>
      if hasBytesD o then .error .typeError else .ok (dumpsV (.pydict o))
    | _ => .error .assertionError
  else
    match m.body with
    | .pybytes b => .ok b
    | _ => .error .assertionError

/-- PSMessage.from_header_body: the type is bits 0-1 of the flag byte
(flags mod 4), a TEXT body is UTF-8 decoded, a JSON body is parsed with
simplejson.loads, a BUFFER body is kept raw; bit 3 (flags div 8 mod 2) is
the stream flag and bit 2 (flags div 4 mod 2) the end-or-error flag. -/
def PSMessage.from_header_body (flags : Nat) (req : Int) (body : List Nat) :
    Except PyErr PSMessage :=
  match psMessageTypeOfValue (flags % 4) with
  | none => .error .valueError
  | some t =>
    match (match t with
           | .TEXT =>
             match utf8Decode body with
             | some s => Except.ok (PyVal.pystr s)
             | none => Except.error PyErr.unicodeDecodeError
           | .JSON =>
             match loads body with
             | some v => Except.ok v
             | none => Except.error PyErr.jsonDecodeError
           | .BUFFER => Except.ok (PyVal.pybytes body)) with
    | .error e => .error e
    | .ok b => .ok ⟨t, b, decide (flags / 8 % 2 = 1), decide (flags / 4 % 2 = 1), some req⟩

/-- The flag byte written by PacketStream._write:
(int(stream) shifted left 3) or (int(end_err) shifted left 2) or type. -/
def packFlags (m : PSMessage) : Nat :=
  ((cond m.stream 1 0) <<< 3) ||| ((cond m.end_err 1 0) <<< 2) ||| m.type.value

theorem packFlags_arith (m : PSMessage) :
    packFlags m = 8 * (cond m.stream 1 0) + 4 * (cond m.end_err 1 0) + m.type.value := by
  obtain ⟨t, b, s, e, r⟩ := m
  show ((cond s 1 0) <<< 3) ||| ((cond e 1 0) <<< 2) ||| t.value =
    8 * (cond s 1 0) + 4 * (cond e 1 0) + t.value
  cases s <;> cases e <;> cases t <;> decide

/-- The 9-byte header written by struct.pack with format BIi. -/
def packHeader (flags bodyLen : Nat) (req : Int) : List Nat :=
  flags :: (packU32 bodyLen ++ packI32 req)

/-- struct.unpack with format BIi over a 9-byte header; anything but 9
bytes is a struct.error. -/
def unpackHeader (h : List Nat) : Option (Nat × Nat × Int) :=
  match h with
  | [b0, b1, b2, b3, b4, b5, b6, b7, b8] =>
    some (b0, unpackU32 b1 b2 b3 b4, unpackI32 (unpackU32 b5 b6 b7 b8))
  | _ => none

/-- PacketStream._write: encode the body, pack the header, and return the
two transport writes it performs, the header write and the single body
write.  struct.pack range failures and a missing request id raise. -/
def PacketStream._write (msg : PSMessage) : Except PyErr (List (List Nat)) :=
  match msg.data with
  | .error e => .error e
  | .ok d =>
    match msg.req with
    | none => .error .structError
    | some r =>
      if d.length < 2 ^ 32 ∧ -(2 ^ 31) ≤ r ∧ r < 2 ^ 31 then
        .ok [packHeader (packFlags msg) d.length r, d]
      else .error .structError

theorem unpackHeader_packHeader (flags bodyLen : Nat) (req : Int)
    (hl : bodyLen < 2 ^ 32) (h1 : -(2 ^ 31) ≤ req) (h2 : req < 2 ^ 31) :
    unpackHeader (packHeader flags bodyLen req) = some (flags, bodyLen, req) := by
  unfold packHeader packI32 unpackHeader
  simp only [packU32, List.cons_append, List.nil_append]
  rw [unpackU32_packU32 bodyLen hl]
  have hn : (req % 2 ^ 32).toNat < 2 ^ 32 := by omega
  rw [unpackU32_packU32 _ hn]
  rw [packI32_toNat req h1 h2]

theorem packFlagsAux_bits (s e : Bool) (t : PSMessageType) :
    (((cond s 1 0) <<< 3) ||| ((cond e 1 0) <<< 2) ||| t.value) % 4 = t.value ∧
    decide ((((cond s 1 0) <<< 3) ||| ((cond e 1 0) <<< 2) ||| t.value) / 8 % 2 = 1) = s ∧
    decide ((((cond s 1 0) <<< 3) ||| ((cond e 1 0) <<< 2) ||| t.value) / 4 % 2 = 1) = e := by
  cases s <;> cases e <;> cases t <;> decide

theorem packFlags_bits (t : PSMessageType) (body : PyVal) (s e : Bool) (r : Option Int) :
    packFlags ⟨t, body, s, e, r⟩ % 4 = t.value ∧
    decide (packFlags ⟨t, body, s, e, r⟩ / 8 % 2 = 1) = s ∧
    decide (packFlags ⟨t, body, s, e, r⟩ / 4 % 2 = 1) = e :=
  packFlagsAux_bits s e t

theorem psMessageTypeOfValue_value (t : PSMessageType) :
    psMessageTypeOfValue t.value = some t := by cases t <;> rfl

theorem utf8Encode_total (s : List Nat) (h : s.all scalarB = true) :
    ∃ e, utf8Encode s = some e := by
  induction s with
  | nil => exact ⟨[], rfl⟩
  | cons c tl ih =>
    simp only [List.all_cons, Bool.and_eq_true] at h
    obtain ⟨e, he⟩ := ih h.2
    refine ⟨utf8EncChar c ++ e, ?_⟩
    unfold utf8Encode
    rw [if_pos h.1, he]

mutual

theorem jsonOk_noBytesV (v : PyVal) : jsonOkV v = true → hasBytesV v = false := by
  cases v with
  | pybytes b => intro h; simp [jsonOkV] at h
  | pystr s => intro _; rfl
  | pyint n => intro _; rfl
  | pybool b => intro _; rfl
  | pynone => intro _; rfl
  | pylist a =>
    intro h
    have := jsonOk_noBytesL a (by simpa [jsonOkV] using h)
    simpa [hasBytesV] using this
  | pydict o =>
    intro h
    have := jsonOk_noBytesD o (by simpa [jsonOkV] using h)
    simpa [hasBytesV] using this

theorem jsonOk_noBytesL (a : PyList) : jsonOkL a = true → hasBytesL a = false := by
  cases a with
  | lnil => intro _; rfl
  | lcons v tl =>
    intro h
    simp only [jsonOkL, Bool.and_eq_true] at h
    have h1 := jsonOk_noBytesV v h.1
    have h2 := jsonOk_noBytesL tl h.2
    simp [hasBytesL, h1, h2]

theorem jsonOk_noBytesD (o : PyDict) : jsonOkD o = true → hasBytesD o = false := by
  cases o with
  | dnil => intro _; rfl
  | dcons k v tl =>
    intro h
    simp only [jsonOkD, Bool.and_eq_true] at h
    have h1 := jsonOk_noBytesV v h.1.2
    have h2 := jsonOk_noBytesD tl h.2
    simp [hasBytesD, h1, h2]

end

/-- The body shapes the protocol calls valid for each message type: raw
bytes for BUFFER, a scalar-valued str for TEXT, a json-serializable dict
(or the stream-termination sentinel True) for JSON. -/
def bodyShape (t : PSMessageType) (body : PyVal) : Bool :=
  match t, body with
  | .BUFFER, .pybytes _ => true
  | .TEXT, .pystr s => s.all scalarB
  | .JSON, .pydict o => jsonOkD o
  | .JSON, .pybool true => true
  | _, _ => false

/-- C1: frame codec round trip.  For every valid message — type BUFFER,
TEXT or JSON, a body of the matching shape, stream flag, end-or-error
flag and a request id in signed 32-bit range — PacketStream._write
performs exactly the header write and the body write; the header unpacks
to the flag byte, the body length as big-endian u32 and the request id as
big-endian signed i32; the flag byte packs bits 0-1 as the type, bit 2 as
end_err and bit 3 as stream; and decoding the header and body with
PSMessage.from_header_body yields a message equal to the original. -/
theorem C1_frame_codec_roundtrip (t : PSMessageType) (body : PyVal) (stream end_err : Bool)
    (req : Int) (d : List Nat)
    (hshape : bodyShape t body = true)
    (hreq1 : -(2 ^ 31) ≤ req) (hreq2 : req < 2 ^ 31)
    (hdata : (PSMessage.mk t body stream end_err (some req)).data = .ok d)
    (hlen : d.length < 2 ^ 32) :
    PacketStream._write ⟨t, body, stream, end_err, some req⟩ =
      .ok [packHeader (packFlags ⟨t, body, stream, end_err, some req⟩) d.length req, d] ∧
    unpackHeader (packHeader (packFlags ⟨t, body, stream, end_err, some req⟩) d.length req) =
      some (packFlags ⟨t, body, stream, end_err, some req⟩, d.length, req) ∧
    packFlags ⟨t, body, stream, end_err, some req⟩ % 4 = t.value ∧
    decide (packFlags ⟨t, body, stream, end_err, some req⟩ / 8 % 2 = 1) = stream ∧
    decide (packFlags ⟨t, body, stream, end_err, some req⟩ / 4 % 2 = 1) = end_err ∧
    PSMessage.from_header_body (packFlags ⟨t, body, stream, end_err, some req⟩) req d =
      .ok ⟨t, body, stream, end_err, some req⟩ := by
  obtain ⟨hb0, hb1, hb2⟩ := packFlags_bits t body stream end_err (some req)
  refine ⟨?_, unpackHeader_packHeader _ d.length req hlen hreq1 hreq2, hb0, hb1, hb2, ?_⟩
  · unfold PacketStream._write
    rw [hdata]
    dsimp only
    rw [if_pos ⟨hlen, hreq1, hreq2⟩]
  · unfold PSMessage.from_header_body
    rw [hb0, psMessageTypeOfValue_value t]
    cases t with
    | BUFFER =>
      cases body
      case pybytes b =>
        simp [PSMessage.data, pyIsTrue] at hdata
        subst hdata
        dsimp only
        rw [hb1, hb2]
      all_goals exact Bool.noConfusion hshape
    | TEXT =>
      cases body
      case pystr s =>
        simp [PSMessage.data, pyIsTrue] at hdata
        cases he : utf8Encode s with
        | none => rw [he] at hdata; cases hdata
        | some e =>
          rw [he] at hdata
          simp only [Except.ok.injEq] at hdata
          subst hdata
          dsimp only
          rw [utf8Decode_utf8Encode s e he]
          dsimp only
          rw [hb1, hb2]
      all_goals exact Bool.noConfusion hshape
    | JSON =>
      cases body
      case pydict o =>
        simp [PSMessage.data, pyIsTrue, jsonOk_noBytesD o hshape] at hdata
        subst hdata
        dsimp only
        rw [loads_dumps (.pydict o) (by simpa [jsonOkV] using hshape)]
        dsimp only
        rw [hb1, hb2]
      case pybool b =>
        cases b
        case true =>
          simp [PSMessage.data, pyIsTrue] at hdata
          subst hdata
          dsimp only
          rw [show ([116, 114, 117, 101] : List Nat) = dumpsV (.pybool true) from rfl]
          rw [loads_dumps (.pybool true) rfl]
          dsimp only
          rw [hb1, hb2]
        case false => exact Bool.noConfusion hshape
      all_goals exact Bool.noConfusion hshape

theorem C1_frame_codec_roundtrip_witness :
    PSMessage.from_header_body 10 5 [123, 125] =
      .ok ⟨.JSON, .pydict .dnil, true, false, some 5⟩ ∧
    PacketStream._write ⟨.JSON, .pydict .dnil, true, false, some 5⟩ =
      .ok [packHeader 10 2 5, [123, 125]] := by
  have h := C1_frame_codec_roundtrip .JSON (.pydict .dnil) true false 5 [123, 125] rfl
    (by decide) (by decide) rfl (by decide)
  exact ⟨h.2.2.2.2.2, h.1⟩

/-! ## Body chunking and PacketStream._read -/

/-- Split a byte string into consecutive chunks of at most 4096 bytes, the
shape in which the transport delivers a frame body to the read side. -/
def chunk4096 (b : List Nat) : List (List Nat) :=
  if h : b = [] then [] else b.take 4096 :: chunk4096 (b.drop 4096)
termination_by b.length
decreasing_by
  simp only [List.length_drop]
  have hp : b.length ≠ 0 := fun hl => h (List.eq_nil_of_length_eq_zero hl)
  omega

theorem chunk4096_nil : chunk4096 [] = [] := by rw [chunk4096]; rfl

theorem chunk4096_ne (b : List Nat) (h : b ≠ []) :
    chunk4096 b = b.take 4096 :: chunk4096 (b.drop 4096) := by
  rw [chunk4096]
  rw [dif_neg h]

/-- Outcome of the body-reading loop in PacketStream._read: all chunks
read, the transport raised StopAsyncIteration mid-body, or an empty read
arrived mid-body (the code closes the connection and returns None). -/
inductive ChunksResult where
  | complete (chunks rest : List (List Nat))
  | eofDuringBody
  | emptyChunk (rest : List (List Nat))

/-- The body-reading loop of PacketStream._read: n_packets reads from the
transport, concatenated by the caller. -/
def readChunks : Nat → List (List Nat) → ChunksResult
  | 0, rest => .complete [] rest
  | _ + 1, [] => .eofDuringBody
  | n + 1, c :: rest =>
    if c = [] then .emptyChunk rest
    else
      match readChunks n rest with
      | .complete cs r => .complete (c :: cs) r
      | .eofDuringBody => .eofDuringBody
      | .emptyChunk r => .emptyChunk r

theorem readChunks_chunk4096 (b : List Nat) (extra : List (List Nat)) :
    readChunks ((b.length + 4095) / 4096) (chunk4096 b ++ extra) =
      .complete (chunk4096 b) extra := by
  induction b using chunk4096.induct with
  | case1 => rw [chunk4096_nil]; rfl
  | case2 b hne ih =>
    rw [chunk4096_ne b hne]
    have hL : 0 < b.length := List.length_pos.mpr hne
    have hceil : (b.length + 4095) / 4096 = ((b.drop 4096).length + 4095) / 4096 + 1 := by
      simp only [List.length_drop]
      omega
    rw [hceil]
    simp only [List.cons_append]
    rw [readChunks]
    rw [if_neg (by
      intro hx
      rcases List.take_eq_nil_iff.mp hx with h | h
      · exact absurd h (by omega)
      · exact hne h)]
    rw [ih]

theorem chunk4096_join (b : List Nat) : (chunk4096 b).flatten = b := by
  induction b using chunk4096.induct with
  | case1 => rw [chunk4096_nil]; rfl
  | case2 b hne ih =>
    rw [chunk4096_ne b hne]
    simp only [List.flatten_cons, ih, List.take_append_drop]

theorem chunk4096_sizes (b : List Nat) : ∀ c ∈ chunk4096 b, c.length ≤ 4096 := by
  induction b using chunk4096.induct with
  | case1 => rw [chunk4096_nil]; intro c hc; cases hc
  | case2 b hne ih =>
    rw [chunk4096_ne b hne]
    intro c hc
    rcases List.mem_cons.mp hc with h | h
    · subst h; simp
    · exact ih c h

theorem chunk4096_length (b : List Nat) :
    (chunk4096 b).length = (b.length + 4095) / 4096 := by
  induction b using chunk4096.induct with
  | case1 => rw [chunk4096_nil]; rfl
  | case2 b hne ih =>
    rw [chunk4096_ne b hne]
    have hL : 0 < b.length := List.length_pos.mpr hne
    simp only [List.length_cons, ih, List.length_drop]
    omega

/-- PacketStream._read: one transport read for the header; an empty or
all-zero header is the end sentinel (return None); a malformed header is
a struct.error that propagates; then ceil(length / 4096) transport reads
for the body, with StopAsyncIteration caught (returning None) and an
empty read closing the connection (returning None); finally the header
and reassembled body are decoded, any decode error propagating. -/
def PacketStream._read (input : List (List Nat)) :
    Except PyErr (Option PSMessage × List (List Nat)) :=
  match input with
  | [] => .ok (none, [])
  | header :: rest =>
    if header = [] ∨ header = List.replicate 9 0 then .ok (none, rest)
    else
      match unpackHeader header with
      | none => .error .structError
      | some (flags, bodyLen, req) =>
        match readChunks ((bodyLen + 4095) / 4096) rest with
        | .eofDuringBody => .ok (none, [])
        | .emptyChunk r => .ok (none, r)
        | .complete chunks r =>
          match PSMessage.from_header_body flags req chunks.flatten with
          | .error e => .error e
          | .ok m => .ok (some m, r)

/-! ## Call handlers (PSRequestHandler, PSStreamHandler) -/

/-- PSRequestHandler state: the request id, the asyncio.Event flag, and
the single message slot (the _msg attribute). -/
structure PSRequestHandler where
  req : Int
  eventSet : Bool
  msg : Option PSMessage

/-- PSStreamHandler state: the request id and the asyncio.Queue contents;
the entry none is the close sentinel the code enqueues in stop. -/
structure PSStreamHandler where
  req : Int
  queue : List (Option PSMessage)

def PSRequestHandler.process (h : PSRequestHandler) (m : PSMessage) : PSRequestHandler :=
  { h with msg := some m, eventSet := true }

/-- PSRequestHandler.stop: set the event if it is not already set. -/
def PSRequestHandler.stop (h : PSRequestHandler) : PSRequestHandler :=
  if h.eventSet then h else { h with eventSet := true }

def PSStreamHandler.process (h : PSStreamHandler) (m : PSMessage) : PSStreamHandler :=
  { h with queue := h.queue ++ [some m] }

def PSStreamHandler.stop (h : PSStreamHandler) : PSStreamHandler :=
  { h with queue := h.queue ++ [none] }

/-- What one call of an __anext__ coroutine does once it resumes. -/
inductive AnextResult where
  | yield (m : PSMessage)
  | stopIteration
  | assertError
  | suspended

/-- PSRequestHandler.__anext__ : await the event, then assert self._msg
and return it; with the event set but no message the assert fails. -/
def PSRequestHandler.anext (h : PSRequestHandler) : AnextResult :=
  if h.eventSet then
    match h.msg with
    | some m => .yield m
    | none => .assertError
  else .suspended

/-- PSStreamHandler.__anext__ : take the next queue element; a falsy
element (the none sentinel) raises StopAsyncIteration. -/
def PSStreamHandler.anext (h : PSStreamHandler) : AnextResult × PSStreamHandler :=
  match h.queue with
  | [] => (.suspended, h)
  | some m :: q => (.yield m, { h with queue := q })
  | none :: q => (.stopIteration, { h with queue := q })

/-- A registered handler is one of the two kinds. -/
inductive PSHandler where
  | request (h : PSRequestHandler)
  | stream (h : PSStreamHandler)

def PSHandler.req : PSHandler → Int
  | .request h => h.req
  | .stream h => h.req

def PSHandler.process (h : PSHandler) (m : PSMessage) : PSHandler :=
  match h with
  | .request h => .request (h.process m)
  | .stream h => .stream (h.process m)

def PSHandler.stop (h : PSHandler) : PSHandler :=
  match h with
  | .request h => .request h.stop
  | .stream h => .stream h.stop

/-! ## The PacketStream multiplexer state -/

/-- PacketStream state: the request counter, the pending table
(_event_map; the wall-clock registration time stored alongside each
handler carries no information and is dropped), and the transport's
is_connected flag. -/
structure PacketStream where
  req_counter : Int
  event_map : List (Int × PSHandler)
  connected : Bool

/-- PacketStream.__init__ : counter 1, empty pending table. -/
def PacketStream.init (connected : Bool) : PacketStream := ⟨1, [], connected⟩

/-- Python dict lookup over the insertion-ordered pending table. -/
def mapGet : List (Int × PSHandler) → Int → Option PSHandler
  | [], _ => none
  | (k, v) :: tl, q => if k = q then some v else mapGet tl q

/-- Python dict assignment: replace in place or append. -/
def mapSet : List (Int × PSHandler) → Int → PSHandler → List (Int × PSHandler)
  | [], k, v => [(k, v)]
  | (k1, v1) :: tl, k, v => if k1 = k then (k1, v) :: tl else (k1, v1) :: mapSet tl k v

/-- Python dict deletion of a present key. -/
def mapDel : List (Int × PSHandler) → Int → List (Int × PSHandler)
  | [], _ => []
  | (k1, v1) :: tl, k => if k1 = k then tl else (k1, v1) :: mapDel tl k

/-- PacketStream.register_handler : store the handler under its own req. -/
def PacketStream.register_handler (ps : PacketStream) (h : PSHandler) : PacketStream :=
  { ps with event_map := mapSet ps.event_map h.req h }

/-- The reply-routing part of PacketStream.read, applied to the message
that _read decoded: a negative req is looked up (KeyError if absent), the
handler processes the message in place, and on end_err the handler is
stopped and its entry deleted; the message itself is always returned. -/
def PacketStream.read_route (ps : PacketStream) (msg : PSMessage) :
    Except PyErr (PacketStream × PSMessage) :=
  match msg.req with
  | some r =>
    if r < 0 then
      match mapGet ps.event_map (-r) with
      | none => .error .keyError
      | some h =>
        if msg.end_err then
          .ok ({ ps with
            event_map := mapDel (mapSet ps.event_map (-r) ((h.process msg).stop)) (-r) }, msg)
        else
          .ok ({ ps with event_map := mapSet ps.event_map (-r) (h.process msg) }, msg)
    else .ok (ps, msg)
  | none => .ok (ps, msg)

/-- PacketStream.send : pick the request id (the counter when req is
unset), write the frame, create a stream or request handler carrying
req_counter, register it, and finally advance the counter only when req
was unset.  Returns the new state, the transport writes performed, and
the handler (or the exception that propagated out of _write, in which
case nothing was registered). -/
def PacketStream.send (ps : PacketStream) (body : PyVal) (msg_type : PSMessageType)
    (stream end_err : Bool) (req : Option Int) :
    PacketStream × List (List Nat) × Except PyErr PSHandler :=
  let update_counter := req.isNone
  let req1 := req.getD ps.req_counter
  let msg : PSMessage := ⟨msg_type, body, stream, end_err, some req1⟩
  match PacketStream._write msg with
  | .error e => (ps, [], .error e)
  | .ok writes =>
    let handler : PSHandler :=
      if stream then .stream ⟨ps.req_counter, []⟩ else .request ⟨ps.req_counter, false, none⟩
    let ps1 := ps.register_handler handler
    let ps2 := if update_counter then { ps1 with req_counter := ps1.req_counter + 1 } else ps1
    (ps2, writes, .ok handler)

/-! ## The MuxRPC layer (src/ssb/muxrpc.py) -/

inductive MuxRPCCallType where
  | sync
  | async
  | source
  | sink
  | duplex

def MuxRPCCallType.typeName : MuxRPCCallType → List Nat
  | .sync => strBytes "sync"
  | .async => strBytes "async"
  | .source => strBytes "source"
  | .sink => strBytes "sink"
  | .duplex => strBytes "duplex"

/-- The façade handed back by MuxRPCAPI.call. -/
inductive MuxRPCHandler where
  | requestH (ph : PSRequestHandler)
  | sourceH (ph : PSStreamHandler)
  | sinkH (req : Int)
  | duplexH (ph : PSStreamHandler) (req : Int)

/-- The _get_appropriate_api_handler dispatch with its isinstance
asserts; sink and duplex façades capture the pre-send counter value. -/
def getAppropriateAPIHandler : MuxRPCCallType → PSHandler → Int → Except PyErr MuxRPCHandler
  | .sync, .request h, _ => .ok (.requestH h)
  | .sync, .stream _, _ => .error .assertionError
  | .async, .request h, _ => .ok (.requestH h)
  | .async, .stream _, _ => .error .assertionError
  | .source, .stream h, _ => .ok (.sourceH h)
  | .source, .request _, _ => .error .assertionError
  | .sink, _, r => .ok (.sinkH r)
  | .duplex, .stream h, r => .ok (.duplexH h r)
  | .duplex, .request _, _ => .error .assertionError

/-- Python str.split on the dot. -/
def splitDot : List Nat → List (List Nat)
  | [] => [[]]
  | c :: rest =>
    match splitDot rest with
    | [] => [[c]]
    | h :: t => if c = 46 then [] :: h :: t else (c :: h) :: t

def pyStrList (xs : List (List Nat)) : PyList :=
  xs.foldr (fun s acc => .lcons (.pystr s) acc) .lnil

/-- The call envelope MuxRPCAPI.call serializes. -/
def callEnvelope (nm : List Nat) (args : PyList) (t : MuxRPCCallType) : PyVal :=
  .pydict (.dcons (strBytes "name") (.pylist (pyStrList (splitDot nm)))
    (.dcons (strBytes "args") (.pylist args)
      (.dcons (strBytes "type") (.pystr t.typeName) .dnil)))

/-- MuxRPCAPI.call : raise the generic not-connected Exception before
doing anything if the transport is disconnected; otherwise remember the
counter, send the envelope (stream exactly for sink, source, duplex) and
wrap the returned low-level handler. -/
def MuxRPCAPI.call (ps : PacketStream) (nm : List Nat) (args : PyList) (t : MuxRPCCallType) :
    PacketStream × List (List Nat) × Except PyErr MuxRPCHandler :=
  if ps.connected = false then (ps, [], .error .notConnectedException)
  else
    let old_counter := ps.req_counter
    let stream : Bool := match t with
      | .sink => true
      | .source => true
      | .duplex => true
      | _ => false
    let res := ps.send (callEnvelope nm args t) .JSON stream false none
    match res.2.2 with
    | .error e => (res.1, res.2.1, .error e)
    | .ok psh =>
      match getAppropriateAPIHandler t psh old_counter with
      | .error e => (res.1, res.2.1, .error e)
      | .ok h => (res.1, res.2.1, .ok h)

/-- MuxRPCSinkHandlerMixin.send : write a frame through the connection
with stream set and the façade's request id. -/
def MuxRPCSinkHandlerMixin.send (ps : PacketStream) (req : Int) (body : PyVal)
    (msg_type : PSMessageType) (end_err : Bool) :
    PacketStream × List (List Nat) × Except PyErr PSHandler :=
  ps.send body msg_type true end_err (some req)

/-- A parsed inbound request: the dot-joined method name and the args. -/
structure MuxRPCRequest where
  name : List Nat
  args : PyVal

/-- Python dict lookup over a JSON object body. -/
def dictGet : PyDict → List Nat → Option PyVal
  | .dnil, _ => none
  | .dcons k v tl, q => if k = q then some v else dictGet tl q

/-- Python ".".join over a list of strings (TypeError on any non-str
element) or over a string (joining its characters). -/
def joinPy : PyVal → Option (List Nat)
  | .pystr s => some (List.intersperse 46 s)
  | .pylist xs => joinStrs xs
  | _ => none
where
  joinStrs : PyList → Option (List Nat)
    | .lnil => some []
    | .lcons v tl =>
      match v with
      | .pystr s =>
        match tl with
        | .lnil => some s
        | .lcons _ _ =>
          match joinStrs tl with
          | some r => some (s ++ 46 :: r)
          | none => none
      | _ => none

/-- MuxRPCRequest.from_message : assert the body is a dict, join the
name path, and take the args (KeyError when absent). -/
def MuxRPCRequest.from_message (m : PSMessage) : Except PyErr MuxRPCRequest :=
  match m.body with
  | .pydict o =>
    match dictGet o (strBytes "name") with
    | none => .error .keyError
    | some nv =>
      match joinPy nv with
      | none => .error .typeError
      | some nm =>
        match dictGet o (strBytes "args") with
        | none => .error .keyError
        | some av => .ok ⟨nm, av⟩
  | _ => .error .assertionError

/-- The handler registry, name to handler (handlers are identified by an
opaque tag, since only which handler runs is observable here). -/
def assocGet : List (List Nat × Nat) → List Nat → Option Nat
  | [], _ => none
  | (k, v) :: tl, q => if k = q then some v else assocGet tl q

/-- MuxRPCAPI.process : look the method up in the registry and invoke it;
raises MuxRPCAPIException when no handler is registered. -/
def MuxRPCAPI.process (handlers : List (List Nat × Nat)) (request : MuxRPCRequest) :
    Except PyErr Nat :=
  match assocGet handlers request.name with
  | none => .error .muxRPCAPIException
  | some hid => .ok hid

/-- MuxRPCAPI.process_messages : for each application-visible message
whose body is a dict with a truthy name field, dispatch through process.
Returns the (handler, request) invocations made and the exception that
escaped the loop, if any: an exception raised by process propagates and
terminates the iteration. -/
def MuxRPCAPI.process_messages (handlers : List (List Nat × Nat)) :
    List PSMessage → List (Nat × MuxRPCRequest) × Option PyErr
  | [] => ([], none)
  | m :: rest =>
    let dispatch : Bool :=
      match m.body with
      | .pydict o =>
        match dictGet o (strBytes "name") with
        | some v => pyTruthy v
        | none => false
      | _ => false
    if dispatch then
      match MuxRPCRequest.from_message m with
      | .error e => ([], some e)
      | .ok req =>
        match MuxRPCAPI.process handlers req with
        | .error e => ([], some e)
        | .ok hid =>
          let p := MuxRPCAPI.process_messages handlers rest
          ((hid, req) :: p.1, p.2)
    else MuxRPCAPI.process_messages handlers rest

/-! ## Pending-table lemmas -/

theorem mapGet_mapSet_self (m : List (Int × PSHandler)) (k : Int) (v : PSHandler) :
    mapGet (mapSet m k v) k = some v := by
  induction m with
  | nil => simp [mapSet, mapGet]
  | cons p tl ih =>
    obtain ⟨k1, v1⟩ := p
    by_cases h : k1 = k
    · subst h; simp [mapSet, mapGet]
    · simp [mapSet, mapGet, h, ih]

theorem mapGet_mapSet_other (m : List (Int × PSHandler)) (k q : Int) (v : PSHandler)
    (h : q ≠ k) : mapGet (mapSet m k v) q = mapGet m q := by
  induction m with
  | nil =>
    have hq : ¬ k = q := fun hx => h hx.symm
    simp [mapSet, mapGet, hq]
  | cons p tl ih =>
    obtain ⟨k1, v1⟩ := p
    by_cases h1 : k1 = k
    · subst h1
      have hq : ¬ k1 = q := fun hx => h hx.symm
      simp [mapSet, mapGet, hq]
    · simp only [mapSet, if_neg h1]
      by_cases h2 : k1 = q
      · subst h2; simp [mapGet]
      · simp [mapGet, h2, ih]

theorem mapGet_mapDel_other (m : List (Int × PSHandler)) (k q : Int) (h : q ≠ k) :
    mapGet (mapDel m k) q = mapGet m q := by
  induction m with
  | nil => simp [mapDel]
  | cons p tl ih =>
    obtain ⟨k1, v1⟩ := p
    by_cases h1 : k1 = k
    · subst h1
      have hq : ¬ k1 = q := fun hx => h hx.symm
      simp [mapDel, mapGet, hq]
    · simp only [mapDel, if_neg h1]
      by_cases h2 : k1 = q
      · subst h2; simp [mapGet]
      · simp [mapGet, h2, ih]

theorem mapGet_none_of_not_mem (m : List (Int × PSHandler)) (k : Int)
    (h : k ∉ m.map Prod.fst) : mapGet m k = none := by
  induction m with
  | nil => rfl
  | cons p tl ih =>
    obtain ⟨k1, v1⟩ := p
    simp only [List.map_cons, List.mem_cons] at h
    push_neg at h
    have hq : ¬ k1 = k := fun hx => h.1 hx.symm
    simp [mapGet, hq, ih h.2]

theorem keys_mapSet (m : List (Int × PSHandler)) (k : Int) (v : PSHandler) :
    (mapSet m k v).map Prod.fst =
      if k ∈ m.map Prod.fst then m.map Prod.fst else m.map Prod.fst ++ [k] := by
  induction m with
  | nil => simp [mapSet]
  | cons p tl ih =>
    obtain ⟨k1, v1⟩ := p
    by_cases h1 : k1 = k
    · subst h1
      simp [mapSet]
    · simp only [mapSet, if_neg h1, List.map_cons, ih]
      by_cases hk : k ∈ tl.map Prod.fst
      · rw [if_pos hk, if_pos (by simp [hk])]
      · rw [if_neg hk, if_neg (by simp [hk]; omega)]
        simp

theorem keys_mapSet_nodup (m : List (Int × PSHandler)) (k : Int) (v : PSHandler)
    (h : (m.map Prod.fst).Nodup) : ((mapSet m k v).map Prod.fst).Nodup := by
  rw [keys_mapSet]
  by_cases hk : k ∈ m.map Prod.fst
  · rw [if_pos hk]; exact h
  · rw [if_neg hk]
    simp [List.nodup_append, h, hk]

theorem mapGet_mapDel_self (m : List (Int × PSHandler)) (k : Int)
    (h : (m.map Prod.fst).Nodup) : mapGet (mapDel m k) k = none := by
  induction m with
  | nil => rfl
  | cons p tl ih =>
    obtain ⟨k1, v1⟩ := p
    simp only [List.map_cons, List.nodup_cons] at h
    by_cases h1 : k1 = k
    · subst h1
      simp only [mapDel, if_pos rfl]
      exact mapGet_none_of_not_mem tl k1 h.1
    · simp only [mapDel, if_neg h1]
      simp [mapGet, h1, ih h.2]

/-- C2 (amended): a pending-table entry is removed exactly when a reply
frame carrying the end-or-error bit arrives for its id, for both handler
kinds; a reply without the bit (in particular a non-streaming handler's
single reply) leaves the entry in place.  Other entries are never
touched, and routing a found reply never fails. -/
theorem C2_pending_entry_removed_iff_end_err (ps : PacketStream) (msg : PSMessage) (r : Int)
    (h : PSHandler)
    (hnodup : (ps.event_map.map Prod.fst).Nodup)
    (hreq : msg.req = some r) (hneg : r < 0)
    (hfound : mapGet ps.event_map (-r) = some h) :
    ∃ ps', ps.read_route msg = .ok (ps', msg) ∧
      (mapGet ps'.event_map (-r) = none ↔ msg.end_err = true) ∧
      (∀ q, q ≠ -r → mapGet ps'.event_map q = mapGet ps.event_map q) := by
  unfold PacketStream.read_route
  rw [hreq]
  dsimp only
  rw [if_pos hneg, hfound]
  dsimp only
  cases hEE : msg.end_err with
  | true =>
    refine ⟨_, rfl, ?_, ?_⟩
    · constructor
      · intro _; rfl
      · intro _
        exact mapGet_mapDel_self _ (-r)
          (keys_mapSet_nodup ps.event_map (-r) _ hnodup)
    · intro q hq
      simp only
      rw [mapGet_mapDel_other _ _ _ hq, mapGet_mapSet_other _ _ _ _ hq]
  | false =>
    refine ⟨_, rfl, ?_, ?_⟩
    · rw [mapGet_mapSet_self]
      simp [hEE]
    · intro q hq
      simp only
      rw [mapGet_mapSet_other _ _ _ _ hq]

theorem C2_witness :
    ∃ ps', PacketStream.read_route ⟨2, [(1, .request ⟨1, false, none⟩)], true⟩
        ⟨.JSON, .pydict .dnil, false, true, some (-1)⟩ =
        .ok (ps', ⟨.JSON, .pydict .dnil, false, true, some (-1)⟩) ∧
      (mapGet ps'.event_map 1 = none ↔
        (PSMessage.mk .JSON (.pydict .dnil) false true (some (-1))).end_err = true) ∧
      (∀ q, q ≠ 1 → mapGet ps'.event_map q =
        mapGet [(1, PSHandler.request ⟨1, false, none⟩)] q) :=
  C2_pending_entry_removed_iff_end_err ⟨2, [(1, .request ⟨1, false, none⟩)], true⟩
    ⟨.JSON, .pydict .dnil, false, true, some (-1)⟩ (-1) (.request ⟨1, false, none⟩)
    (by simp) rfl (by decide) rfl

/-- C2 counterexample: a non-streaming (single-slot) handler receives its
single reply with the end-or-error bit clear; the reply is processed but
the pending-table entry is not removed, contradicting removal on receipt
of the single reply. -/
theorem C2_counterexample :
    PacketStream.read_route ⟨2, [(1, .request ⟨1, false, none⟩)], true⟩
      ⟨.JSON, .pydict .dnil, false, false, some (-1)⟩ =
      .ok (⟨2, [(1, .request ⟨1, true,
          some ⟨.JSON, .pydict .dnil, false, false, some (-1)⟩⟩)], true⟩,
        ⟨.JSON, .pydict .dnil, false, false, some (-1)⟩) ∧
    mapGet [(1, PSHandler.request ⟨1, true,
        some ⟨.JSON, .pydict .dnil, false, false, some (-1)⟩⟩)] 1 ≠ none := by
  exact ⟨rfl, by simp [mapGet]⟩

/-- A sequence of PacketStream.send calls of the JSON envelope body, each
with the given optional explicit request id; returns the final state and
the request id actually used by each send. -/
def sendSeq (ps : PacketStream) : List (Option Int) → PacketStream × List Int
  | [] => (ps, [])
  | r :: rest =>
    let used := r.getD ps.req_counter
    let res := ps.send (.pydict .dnil) .JSON false false r
    let rec2 := sendSeq res.1 rest
    (rec2.1, used :: rec2.2)

theorem send_envelope_ok (ps : PacketStream) (hlo : -(2 ^ 31) ≤ ps.req_counter)
    (hhi : ps.req_counter < 2 ^ 31) :
    ps.send (.pydict .dnil) .JSON false false none =
      ({ ps with
          event_map := mapSet ps.event_map ps.req_counter
            (.request ⟨ps.req_counter, false, none⟩),
          req_counter := ps.req_counter + 1 },
        [packHeader 2 2 ps.req_counter, [123, 125]],
        .ok (.request ⟨ps.req_counter, false, none⟩)) := by
  have hpf : packFlags ⟨.JSON, .pydict .dnil, false, false, some ps.req_counter⟩ = 2 := by
    rw [packFlags_arith]
    rfl
  have hw : PacketStream._write ⟨.JSON, .pydict .dnil, false, false, some ps.req_counter⟩ =
      .ok [packHeader 2 2 ps.req_counter, [123, 125]] := by
    unfold PacketStream._write
    rw [show (PSMessage.mk .JSON (.pydict .dnil) false false
      (some ps.req_counter)).data = .ok [123, 125] from rfl]
    dsimp only
    rw [if_pos ⟨by decide, hlo, hhi⟩, hpf]
    rfl
  unfold PacketStream.send
  dsimp only [Option.getD, Option.isNone]
  rw [hw]
  dsimp only [PacketStream.register_handler, PSHandler.req]
  rfl

theorem sendSeq_none_ids (n : Nat) : ∀ ps : PacketStream,
    -(2 ^ 31) ≤ ps.req_counter → ps.req_counter + n ≤ 2 ^ 31 →
    (sendSeq ps (List.replicate n none)).2 =
      (List.range n).map (fun i : Nat => ps.req_counter + (i : Int)) ∧
    (sendSeq ps (List.replicate n none)).1.req_counter = ps.req_counter + n := by
  induction n with
  | zero =>
    intro ps _ _
    rw [show (List.replicate 0 (none : Option Int)) = [] from rfl]
    refine ⟨rfl, ?_⟩
    show ps.req_counter = ps.req_counter + ((0 : Nat) : Int)
    simp
  | succ n ih =>
    intro ps hlo hhi
    rw [List.replicate_succ]
    unfold sendSeq
    rw [send_envelope_ok ps hlo (by omega)]
    dsimp only [Option.getD]
    obtain ⟨h1, h2⟩ := ih { ps with
        event_map := mapSet ps.event_map ps.req_counter
          (.request ⟨ps.req_counter, false, none⟩),
        req_counter := ps.req_counter + 1 } (by dsimp only; omega) (by dsimp only; omega)
    rw [h1, h2]
    dsimp only
    refine ⟨?_, by push_cast; omega⟩
    rw [List.range_succ_eq_map]
    rw [List.map_cons, List.map_map]
    congr 1
    · push_cast
      ring
    · apply List.map_congr_left
      intro i _
      show ps.req_counter + 1 + (i : Int) = ps.req_counter + ((i + 1 : Nat) : Int)
      push_cast
      ring

/-- C3: request ids issued by send with req unset are exactly 1, 2, 3, …
— strictly increasing by 1 from the counter's initial value 1, so never
reused while any response is outstanding — and a send with an explicit
req never advances the counter, making the unset-req path the only one
that mints a new outbound id. -/
theorem C3_request_ids (n : Nat) (hn : (n : Int) + 1 ≤ 2 ^ 31) :
    (sendSeq (PacketStream.init true) (List.replicate n none)).2 =
      (List.range n).map (fun i : Nat => 1 + (i : Int)) ∧
    (sendSeq (PacketStream.init true) (List.replicate n none)).1.req_counter = 1 + n ∧
    List.Pairwise (· < ·) ((sendSeq (PacketStream.init true) (List.replicate n none)).2) ∧
    (∀ (ps : PacketStream) (body : PyVal) (mt : PSMessageType) (s e : Bool) (r : Int),
      ((ps.send body mt s e (some r)).1).req_counter = ps.req_counter) := by
  obtain ⟨h1, h2⟩ := sendSeq_none_ids n (PacketStream.init true) (by decide)
    (by show (1 : Int) + n ≤ 2 ^ 31; omega)
  refine ⟨by simpa [PacketStream.init] using h1, by simpa [PacketStream.init] using h2,
    ?_, ?_⟩
  · rw [show (sendSeq (PacketStream.init true) (List.replicate n none)).2 =
      (List.range n).map (fun i : Nat => 1 + (i : Int)) from by
        simpa [PacketStream.init] using h1]
    exact (List.pairwise_lt_range n).map _ (fun a b hab => by push_cast; omega)
  · intro ps body mt s e r
    unfold PacketStream.send
    dsimp only [Option.getD, Option.isNone]
    cases hw : PacketStream._write ⟨mt, body, s, e, some r⟩ with
    | error e2 => rfl
    | ok w =>
      dsimp only [PacketStream.register_handler]
      rfl

theorem C3_witness :
    (sendSeq (PacketStream.init true) (List.replicate 3 none)).2 =
      (List.range 3).map (fun i : Nat => 1 + (i : Int)) :=
  (C3_request_ids 3 (by decide)).1

/-- C5 (amended): a decoded frame with negative req whose negated id has
no pending-table entry makes read crash with an uncaught KeyError (the
bare dictionary lookup), rather than being discarded. -/
theorem C5_unknown_reply_keyerror (ps : PacketStream) (msg : PSMessage) (r : Int)
    (hreq : msg.req = some r) (hneg : r < 0)
    (habs : mapGet ps.event_map (-r) = none) :
    ps.read_route msg = .error .keyError := by
  unfold PacketStream.read_route
  rw [hreq]
  dsimp only
  rw [if_pos hneg, habs]

theorem C5_witness :
    PacketStream.read_route (PacketStream.init true)
      ⟨.JSON, .pydict .dnil, true, false, some (-2)⟩ = .error .keyError :=
  C5_unknown_reply_keyerror (PacketStream.init true)
    ⟨.JSON, .pydict .dnil, true, false, some (-2)⟩ (-2) rfl (by decide) rfl

/-- C5 counterexample: the claim says such a frame is discarded and
logged with no exception escaping read; on the code the lookup raises
KeyError, so read does crash. -/
theorem C5_counterexample :
    PacketStream.read_route (PacketStream.init true)
      ⟨.JSON, .pydict .dnil, false, false, some (-1)⟩ = .error .keyError := rfl

theorem packHeader_not_sentinel (flags bodyLen : Nat) (req : Int)
    (h : flags ≠ 0 ∨ 0 < bodyLen) (hlen : bodyLen < 2 ^ 32) :
    ¬ (packHeader flags bodyLen req = [] ∨
       packHeader flags bodyLen req = List.replicate 9 0) := by
  intro hx
  rcases hx with hx | hx
  · simp [packHeader] at hx
  · rw [show (List.replicate 9 0 : List Nat) = [0, 0, 0, 0, 0, 0, 0, 0, 0] from rfl] at hx
    simp only [packHeader, packU32, packI32, List.cons_append, List.nil_append,
      List.cons.injEq, List.nil_eq] at hx
    obtain ⟨hf, h1, h2, h3, h4, _⟩ := hx
    rcases h with h | h
    · exact h hf
    · omega

/-- C4 (amended): at the packet-stream layer a body of length L goes out
in a single transport write following the header write (the 4096-byte
chunking of outgoing bytes is left to the underlying connection), while
the receive side performs exactly ceil(L/4096) transport reads of at most
4096 bytes each and reassembles them into the original L bytes. -/
theorem C4_chunking (b : List Nat) (req : Int) (extra : List (List Nat))
    (h1 : 0 < b.length) (h2 : b.length < 2 ^ 32)
    (hr1 : -(2 ^ 31) ≤ req) (hr2 : req < 2 ^ 31) :
    PacketStream._write ⟨.BUFFER, .pybytes b, false, false, some req⟩ =
      .ok [packHeader 0 b.length req, b] ∧
    (chunk4096 b).length = (b.length + 4095) / 4096 ∧
    (∀ c ∈ chunk4096 b, c.length ≤ 4096) ∧
    PacketStream._read (packHeader 0 b.length req :: (chunk4096 b ++ extra)) =
      .ok (some ⟨.BUFFER, .pybytes b, false, false, some req⟩, extra) := by
  refine ⟨?_, chunk4096_length b, chunk4096_sizes b, ?_⟩
  · unfold PacketStream._write
    rw [show (PSMessage.mk .BUFFER (.pybytes b) false false (some req)).data = .ok b from rfl]
    dsimp only
    rw [if_pos ⟨h2, hr1, hr2⟩]
    rw [show packFlags ⟨.BUFFER, .pybytes b, false, false, some req⟩ = 0 from by
      rw [packFlags_arith]; rfl]
  · unfold PacketStream._read
    dsimp only
    rw [if_neg (packHeader_not_sentinel 0 b.length req (Or.inr h1) h2)]
    rw [unpackHeader_packHeader 0 b.length req h2 hr1 hr2]
    dsimp only
    rw [readChunks_chunk4096 b extra]
    dsimp only
    rw [chunk4096_join b]
    rw [show PSMessage.from_header_body 0 req b =
      .ok ⟨.BUFFER, .pybytes b, false, false, some req⟩ from rfl]

theorem C4_witness :
    0 < ([7, 8, 9] : List Nat).length ∧
    PacketStream._read (packHeader 0 ([7, 8, 9] : List Nat).length 1 ::
        (chunk4096 [7, 8, 9] ++ [])) =
      .ok (some ⟨.BUFFER, .pybytes [7, 8, 9], false, false, some 1⟩, []) :=
  ⟨by decide, (C4_chunking [7, 8, 9] 1 [] (by decide) (by decide) (by decide) (by decide)).2.2.2⟩

/-- C4 counterexample: a 4097-byte body is written in one transport write
of 4097 bytes after the header write — not split into ceil(4097/4096) = 2
writes of at most 4096 bytes as the claim states. -/
theorem C4_counterexample :
    PacketStream._write ⟨.BUFFER, .pybytes (List.replicate 4097 7), false, false, some 1⟩ =
      .ok [packHeader 0 4097 1, List.replicate 4097 7] ∧
    ((4097 + 4095) / 4096 : Nat) = 2 ∧
    ¬ (List.replicate 4097 (7 : Nat)).length ≤ 4096 := by
  refine ⟨?_, by decide, ?_⟩
  · unfold PacketStream._write
    rw [show (PSMessage.mk .BUFFER (.pybytes (List.replicate 4097 7)) false false
      (some 1)).data = .ok (List.replicate 4097 7) from rfl]
    dsimp only
    rw [List.length_replicate]
    rw [if_pos ⟨by decide, by decide, by decide⟩]
    rw [show packFlags ⟨.BUFFER, .pybytes (List.replicate 4097 7), false, false, some 1⟩ =
      0 from by rw [packFlags_arith]; rfl]
  · rw [List.length_replicate]
    decide

/-- C6 (amended): when a frame declared as JSON has a body that fails
JSON parsing, from_header_body raises the underlying JSONDecodeError and
_read propagates it uncaught (only StopAsyncIteration is handled): there
is no MalformedFrame error in the code, the frame is not discarded, and
the read loop terminates with the exception instead of continuing. -/
theorem C6_json_error_propagates (flags : Nat) (b : List Nat) (req : Int)
    (extra : List (List Nat))
    (hty : flags % 4 = 2) (hbad : loads b = none)
    (hlen : b.length < 2 ^ 32) (hr1 : -(2 ^ 31) ≤ req) (hr2 : req < 2 ^ 31) :
    PSMessage.from_header_body flags req b = .error .jsonDecodeError ∧
    PacketStream._read (packHeader flags b.length req :: (chunk4096 b ++ extra)) =
      .error .jsonDecodeError := by
  have hfb : PSMessage.from_header_body flags req b = .error .jsonDecodeError := by
    unfold PSMessage.from_header_body
    rw [hty]
    rw [show psMessageTypeOfValue 2 = some .JSON from rfl]
    dsimp only
    rw [hbad]
  refine ⟨hfb, ?_⟩
  have hne : flags ≠ 0 := by
    intro h
    rw [h] at hty
    simp at hty
  unfold PacketStream._read
  dsimp only
  rw [if_neg (packHeader_not_sentinel flags b.length req (Or.inl hne) hlen)]
  rw [unpackHeader_packHeader flags b.length req hlen hr1 hr2]
  dsimp only
  rw [readChunks_chunk4096 b extra]
  dsimp only
  rw [chunk4096_join b, hfb]

theorem C6_witness :
    (6 : Nat) % 4 = 2 ∧ loads [121] = none ∧
    PacketStream._read (packHeader 6 ([121] : List Nat).length 3 ::
        (chunk4096 [121] ++ [])) = .error .jsonDecodeError :=
  ⟨by decide, rfl,
    (C6_json_error_propagates 6 [121] 3 [] (by decide) rfl (by decide)
      (by decide) (by decide)).2⟩

/-- C6 counterexample: a JSON frame whose one-byte body is the letter x
makes _read return the JSONDecodeError itself — no MalformedFrame value
exists anywhere in the code, and the loop does not continue. -/
theorem C6_counterexample :
    PacketStream._read [[2, 0, 0, 0, 1, 0, 0, 0, 5], [120]] =
      .error .jsonDecodeError := rfl

/-- C7 (amended): an inbound call envelope naming a method with no
registered handler makes process raise MuxRPCAPIException, and the
exception propagates out of process_messages, terminating the iteration:
no later inbound call is handled, rather than the loop continuing. -/
theorem C7_method_not_found (handlers : List (List Nat × Nat))
    (m : PSMessage) (rest : List PSMessage) (o : PyDict) (nv : PyVal)
    (req : MuxRPCRequest)
    (hbody : m.body = .pydict o)
    (hname : dictGet o (strBytes "name") = some nv)
    (htruthy : pyTruthy nv = true)
    (hfm : MuxRPCRequest.from_message m = .ok req)
    (hno : assocGet handlers req.name = none) :
    MuxRPCAPI.process handlers req = .error .muxRPCAPIException ∧
    MuxRPCAPI.process_messages handlers (m :: rest) = ([], some .muxRPCAPIException) := by
  have hp : MuxRPCAPI.process handlers req = .error .muxRPCAPIException := by
    unfold MuxRPCAPI.process
    rw [hno]
  refine ⟨hp, ?_⟩
  have hd : (match m.body with
      | .pydict o =>
        match dictGet o (strBytes "name") with
        | some v => pyTruthy v
        | none => false
      | _ => false) = true := by
    rw [hbody]
    dsimp only
    rw [hname]
    dsimp only
    exact htruthy
  unfold MuxRPCAPI.process_messages
  dsimp only
  rw [hd, if_pos rfl, hfm]
  dsimp only
  rw [hp]

theorem C7_witness :
    MuxRPCRequest.from_message
        ⟨.JSON, .pydict (.dcons (strBytes "name")
            (.pylist (.lcons (.pystr (strBytes "baz")) .lnil))
          (.dcons (strBytes "args") (.pylist .lnil) .dnil)), true, false, some 1⟩ =
      .ok ⟨strBytes "baz", .pylist .lnil⟩ ∧
    MuxRPCAPI.process_messages []
        [⟨.JSON, .pydict (.dcons (strBytes "name")
            (.pylist (.lcons (.pystr (strBytes "baz")) .lnil))
          (.dcons (strBytes "args") (.pylist .lnil) .dnil)), true, false, some 1⟩] =
      ([], some .muxRPCAPIException) :=
  ⟨rfl,
    (C7_method_not_found []
      ⟨.JSON, .pydict (.dcons (strBytes "name")
          (.pylist (.lcons (.pystr (strBytes "baz")) .lnil))
        (.dcons (strBytes "args") (.pylist .lnil) .dnil)), true, false, some 1⟩ []
      (.dcons (strBytes "name") (.pylist (.lcons (.pystr (strBytes "baz")) .lnil))
        (.dcons (strBytes "args") (.pylist .lnil) .dnil))
      (.pylist (.lcons (.pystr (strBytes "baz")) .lnil))
      ⟨strBytes "baz", .pylist .lnil⟩ rfl rfl rfl rfl rfl).2⟩

/-- C7 counterexample: with only bar registered, an inbound stream of a
foo call followed by a bar call produces no invocation at all — the
MuxRPCAPIException raised for foo ends the loop before bar is reached,
although bar alone would have been dispatched. -/
theorem C7_counterexample :
    MuxRPCAPI.process_messages [(strBytes "bar", 0)]
        [⟨.JSON, .pydict (.dcons (strBytes "name")
            (.pylist (.lcons (.pystr (strBytes "foo")) .lnil))
          (.dcons (strBytes "args") (.pylist .lnil) .dnil)), true, false, some 1⟩,
         ⟨.JSON, .pydict (.dcons (strBytes "name")
            (.pylist (.lcons (.pystr (strBytes "bar")) .lnil))
          (.dcons (strBytes "args") (.pylist .lnil) .dnil)), true, false, some 2⟩] =
      ([], some .muxRPCAPIException) ∧
    MuxRPCAPI.process_messages [(strBytes "bar", 0)]
        [⟨.JSON, .pydict (.dcons (strBytes "name")
            (.pylist (.lcons (.pystr (strBytes "bar")) .lnil))
          (.dcons (strBytes "args") (.pylist .lnil) .dnil)), true, false, some 2⟩] =
      ([(0, ⟨strBytes "bar", .pylist .lnil⟩)], none) :=
  ⟨rfl, rfl⟩

/-- C8 (amended): the disconnected check lives in MuxRPCAPI.call, which
fails before writing or registering anything, raising the generic
Exception for the not-connected case; PacketStream.send itself never
consults the connection state and, on a disconnected stream, still writes
the frame and registers a pending handler. -/
theorem C8_not_connected (ps : PacketStream) (nm : List Nat) (args : PyList)
    (t : MuxRPCCallType)
    (hdis : ps.connected = false)
    (hlo : -(2 ^ 31) ≤ ps.req_counter) (hhi : ps.req_counter < 2 ^ 31) :
    MuxRPCAPI.call ps nm args t = (ps, [], .error .notConnectedException) ∧
    ps.send (.pydict .dnil) .JSON false false none =
      ({ ps with
          event_map := mapSet ps.event_map ps.req_counter
            (.request ⟨ps.req_counter, false, none⟩),
          req_counter := ps.req_counter + 1 },
        [packHeader 2 2 ps.req_counter, [123, 125]],
        .ok (.request ⟨ps.req_counter, false, none⟩)) := by
  refine ⟨?_, send_envelope_ok ps hlo hhi⟩
  unfold MuxRPCAPI.call
  rw [hdis, if_pos rfl]

theorem C8_witness :
    (⟨5, [], false⟩ : PacketStream).connected = false ∧
    MuxRPCAPI.call ⟨5, [], false⟩ (strBytes "whoami") .lnil .async =
      (⟨5, [], false⟩, [], .error .notConnectedException) :=
  ⟨rfl,
    (C8_not_connected ⟨5, [], false⟩ (strBytes "whoami") .lnil .async rfl
      (by decide) (by decide)).1⟩

/-- C8 counterexample: PacketStream.send on a disconnected stream does
not fail with any not-connected error: it writes the header and body and
registers a pending request handler exactly as if connected. -/
theorem C8_counterexample :
    PacketStream.send ⟨1, [], false⟩ (.pydict .dnil) .JSON false false none =
      (⟨2, [(1, .request ⟨1, false, none⟩)], false⟩,
        [packHeader 2 2 1, [123, 125]],
        .ok (.request ⟨1, false, none⟩)) := rfl

/-- C9 (amended): a sink-side send writes its frame with the stream bit
set and the facade's original request id, and the counter does not
advance; but send still registers a fresh pending-table entry on every
invocation — a stream handler stored under the current req_counter — so
the pending table is NOT left unchanged. -/
theorem C9_sink_send (ps : PacketStream) (r : Int)
    (hlo : -(2 ^ 31) ≤ r) (hhi : r < 2 ^ 31) :
    MuxRPCSinkHandlerMixin.send ps r (.pydict .dnil) .JSON false =
      ({ ps with
          event_map := mapSet ps.event_map ps.req_counter
            (.stream ⟨ps.req_counter, []⟩) },
        [packHeader 10 2 r, [123, 125]],
        .ok (.stream ⟨ps.req_counter, []⟩)) ∧
    packFlags ⟨.JSON, .pydict .dnil, true, false, some r⟩ = 10 ∧
    (10 : Nat) / 8 % 2 = 1 := by
  have hpf : packFlags ⟨.JSON, .pydict .dnil, true, false, some r⟩ = 10 := by
    rw [packFlags_arith]
    rfl
  refine ⟨?_, hpf, by decide⟩
  have hw : PacketStream._write ⟨.JSON, .pydict .dnil, true, false, some r⟩ =
      .ok [packHeader 10 2 r, [123, 125]] := by
    unfold PacketStream._write
    rw [show (PSMessage.mk .JSON (.pydict .dnil) true false
      (some r)).data = .ok [123, 125] from rfl]
    dsimp only
    rw [if_pos ⟨by decide, hlo, hhi⟩, hpf]
    rfl
  unfold MuxRPCSinkHandlerMixin.send PacketStream.send
  dsimp only [Option.getD, Option.isNone]
  rw [hw]
  dsimp only [PacketStream.register_handler, PSHandler.req]
  rfl

theorem C9_witness :
    MuxRPCSinkHandlerMixin.send ⟨3, [], true⟩ 1 (.pydict .dnil) .JSON false =
      (⟨3, [(3, .stream ⟨3, []⟩)], true⟩,
        [packHeader 10 2 1, [123, 125]],
        .ok (.stream ⟨3, []⟩)) :=
  (C9_sink_send ⟨3, [], true⟩ 1 (by decide) (by decide)).1

/-- C9 counterexample: a sink facade send on a fresh stream with counter 2
adds the pending entry (2, stream handler) to the previously empty table,
refuting the no-pending-table-entry part of the claim (and the entry key
is the counter, not the facade's request id 1). -/
theorem C9_counterexample :
    MuxRPCSinkHandlerMixin.send ⟨2, [], true⟩ 1 (.pydict .dnil) .JSON false =
      (⟨2, [(2, .stream ⟨2, []⟩)], true⟩,
        [packHeader 10 2 1, [123, 125]],
        .ok (.stream ⟨2, []⟩)) ∧
    mapGet [((2 : Int), PSHandler.stream ⟨2, []⟩)] 2 = some (.stream ⟨2, []⟩) ∧
    mapGet ([] : List (Int × PSHandler)) 2 = none :=
  ⟨rfl, rfl, rfl⟩

/-- C10 (amended): stop on the single-slot handler is idempotent — it
sets the event if unset and is a no-op thereafter, so invoking it again
is harmless rather than forbidden — and it unblocks the waiter; but a
waiter resumed with no message set fails the assert self._msg with an
AssertionError instead of completing as end-of-stream, and a waiter
resumed after a message was set yields that message. -/
theorem C10_request_handler_stop (h : PSRequestHandler) :
    h.stop.eventSet = true ∧
    h.stop.stop = h.stop ∧
    (∀ m, h.msg = some m → h.stop.anext = .yield m) ∧
    (h.msg = none → h.stop.anext = .assertError) := by
  obtain ⟨r, ev, msg⟩ := h
  refine ⟨?_, ?_, ?_, ?_⟩ <;>
    cases ev <;> cases msg <;>
      simp [PSRequestHandler.stop, PSRequestHandler.anext]

theorem C10_witness :
    (PSRequestHandler.stop ⟨7, false, none⟩).eventSet = true ∧
    (PSRequestHandler.stop ⟨7, false, none⟩).anext = .assertError :=
  ⟨(C10_request_handler_stop ⟨7, false, none⟩).1,
    (C10_request_handler_stop ⟨7, false, none⟩).2.2.2 rfl⟩

/-- C10 counterexample: terminating a single-slot handler that never
received a message leaves the waiter failing the assert (AssertionError),
not signalling clean end-of-stream — and stop can be invoked twice. -/
theorem C10_counterexample :
    (PSRequestHandler.stop ⟨1, false, none⟩).anext = .assertError ∧
    (PSRequestHandler.stop ⟨1, false, none⟩).anext ≠ .stopIteration ∧
    (PSRequestHandler.stop (PSRequestHandler.stop ⟨1, false, none⟩)) =
      PSRequestHandler.stop ⟨1, false, none⟩ :=
  ⟨rfl, fun hx => AnextResult.noConfusion (Eq.mpr rfl hx), rfl⟩
